import Mathlib

/-!
Verification of the pymacs workspace/keymap engine.

This file gives a shallow embedding of the core data model and operations of
the pymacs editor (modules `pymacs.keymap`, `pymacs.state`, `pymacs.core`,
`pymacs.ui.controller`) and proves or refutes the frozen specification claims
about them.  Python dicts are embedded as association lists (first-match
lookup, insertion-order preserving updates), Python lists as Lean lists, and
fallible code returns `Option` or `Except`.
-/

set_option autoImplicit false

namespace Pymacs

instance {ε α : Type} [DecidableEq ε] [DecidableEq α] : DecidableEq (Except ε α)
  | .error a, .error b =>
      if h : a = b then isTrue (by rw [h])
      else isFalse (fun hh => h (by cases hh; rfl))
  | .error _, .ok _ => isFalse (fun hh => by cases hh)
  | .ok _, .error _ => isFalse (fun hh => by cases hh)
  | .ok a, .ok b =>
      if h : a = b then isTrue (by rw [h])
      else isFalse (fun hh => h (by cases hh; rfl))

/-! ## Association-list helpers (embedding of Python dicts) -/

section AList

variable {α : Type} {β : Type} [DecidableEq α]

/-- First-match lookup, the embedding of `d[k]` / `d.get(k)`. -/
def alookup : List (α × β) → α → Option β
  | [], _ => none
  | (k, v) :: rest, key => if k = key then some v else alookup rest key

/-- Update or append, the embedding of `d[k] = v` (keeps insertion order). -/
def aset : List (α × β) → α → β → List (α × β)
  | [], key, val => [(key, val)]
  | (k, v) :: rest, key, val =>
      if k = key then (k, val) :: rest else (k, v) :: aset rest key val

/-- Remove a key, the embedding of `del d[k]` / `d.pop(k, None)`. -/
def aremove : List (α × β) → α → List (α × β)
  | [], _ => []
  | (k, v) :: rest, key =>
      if k = key then aremove rest key else (k, v) :: aremove rest key

/-- The keys of the dict in insertion order. -/
def akeys (l : List (α × β)) : List α := l.map Prod.fst

@[simp] theorem alookup_nil (key : α) : alookup ([] : List (α × β)) key = none := rfl

theorem alookup_cons (k : α) (v : β) (rest : List (α × β)) (key : α) :
    alookup ((k, v) :: rest) key = if k = key then some v else alookup rest key := rfl

theorem alookup_aset (l : List (α × β)) (k : α) (v : β) (key : α) :
    alookup (aset l k v) key = if k = key then some v else alookup l key := by
  induction l with
  | nil => simp [aset, alookup_cons]
  | cons hd tl ih =>
      obtain ⟨k', v'⟩ := hd
      by_cases h : k' = k
      · subst h
        by_cases h2 : k' = key <;> simp [aset, alookup_cons, h2]
      · have hset : aset ((k', v') :: tl) k v = (k', v') :: aset tl k v := by
          simp [aset, h]
        rw [hset, alookup_cons, ih]
        by_cases h2 : k' = key
        · subst h2
          have h3 : ¬ k = k' := fun hk => h hk.symm
          simp [h3, alookup_cons]
        · simp [h2, alookup_cons]

theorem alookup_aremove (l : List (α × β)) (k : α) (key : α) :
    alookup (aremove l k) key = if key = k then none else alookup l key := by
  induction l with
  | nil => simp [aremove]
  | cons hd tl ih =>
      obtain ⟨k', v'⟩ := hd
      by_cases h : k' = k
      · subst h
        by_cases h2 : key = k'
        · subst h2
          simp [aremove, ih]
        · have h3 : ¬ k' = key := fun hk => h2 hk.symm
          simp [aremove, alookup_cons, ih, h2, h3]
      · by_cases h2 : key = k
        · subst h2
          simp [aremove, alookup_cons, ih, h]
        · by_cases h4 : k' = key
          · subst h4
            simp [aremove, alookup_cons, ih, h, h2]
          · simp [aremove, alookup_cons, ih, h, h2, h4]

theorem alookup_eq_none_iff (l : List (α × β)) (key : α) :
    alookup l key = none ↔ key ∉ akeys l := by
  induction l with
  | nil => simp [akeys]
  | cons hd tl ih =>
      obtain ⟨k, v⟩ := hd
      by_cases h : k = key
      · subst h
        simp [alookup_cons, akeys]
      · have h3 : ¬ key = k := fun hk => h hk.symm
        simp [alookup_cons, h, akeys, ih, h3]

theorem alookup_mem_akeys {l : List (α × β)} {k : α} {v : β}
    (h : alookup l k = some v) : k ∈ akeys l := by
  by_contra hmem
  rw [← alookup_eq_none_iff] at hmem
  rw [hmem] at h
  cases h

theorem akeys_aset_of_mem {l : List (α × β)} {k : α} (v : β) (h : k ∈ akeys l) :
    akeys (aset l k v) = akeys l := by
  induction l with
  | nil => simp [akeys] at h
  | cons hd tl ih =>
      obtain ⟨k', v'⟩ := hd
      by_cases hk : k' = k
      · subst hk
        simp [aset, akeys]
      · simp only [akeys, List.map_cons, List.mem_cons] at h
        rcases h with h | h
        · exact absurd h.symm hk
        · have := ih h
          simp only [akeys] at this
          simp [aset, hk, akeys, this]

theorem length_aset_of_mem {l : List (α × β)} {k : α} (v : β) (h : k ∈ akeys l) :
    (aset l k v).length = l.length := by
  have := akeys_aset_of_mem v h
  have h1 : (akeys (aset l k v)).length = (akeys l).length := by rw [this]
  simpa [akeys] using h1

theorem length_aremove_nodup {l : List (α × β)} {k : α}
    (hnd : (akeys l).Nodup) (h : k ∈ akeys l) :
    (aremove l k).length + 1 = l.length := by
  induction l with
  | nil => simp [akeys] at h
  | cons hd tl ih =>
      obtain ⟨k', v'⟩ := hd
      simp only [akeys, List.map_cons, List.nodup_cons] at hnd
      by_cases hk : k' = k
      · subst hk
        have : aremove ((k', v') :: tl) k' = tl := by
          have hrm : ∀ (m : List (α × β)), k' ∉ akeys m → aremove m k' = m := by
            intro m
            induction m with
            | nil => intro _; rfl
            | cons hd2 tl2 ih2 =>
                obtain ⟨a, b⟩ := hd2
                intro hm
                simp only [akeys, List.map_cons, List.mem_cons] at hm
                push_neg at hm
                have ha : ¬ a = k' := fun he => hm.1 he.symm
                simp [aremove, ha, ih2 (by simpa [akeys] using hm.2)]
          simp [aremove, hrm tl hnd.1]
        simp [this]
      · simp only [akeys, List.map_cons, List.mem_cons] at h
        rcases h with h | h
        · exact absurd h.symm hk
        · simp only [aremove, if_neg hk, List.length_cons]
          rw [← ih hnd.2 h]

end AList

/-! ## String primitives

The chord strings handled by the codec are ASCII.  We embed the Python string
operations (`split`, `strip`, `upper`, `lower`, `join`) as executable
functions over the character list of a `String`, with Python's ASCII
semantics. -/

/-- Python `str.lower()` on an ASCII character. -/
def pyLowerChar (c : Char) : Char :=
  if 'A' ≤ c ∧ c ≤ 'Z' then Char.ofNat (c.toNat + 32) else c

/-- Python `str.upper()` on an ASCII character. -/
def pyUpperChar (c : Char) : Char :=
  if 'a' ≤ c ∧ c ≤ 'z' then Char.ofNat (c.toNat - 32) else c

/-- Python `str.lower()`. -/
def pyLower (s : String) : String := ⟨s.data.map pyLowerChar⟩

/-- Python `str.upper()`. -/
def pyUpper (s : String) : String := ⟨s.data.map pyUpperChar⟩

/-- Split a character list at every character satisfying `sep`, keeping
empty pieces (Python `str.split(sep)` semantics for a one-char separator). -/
def splitCharAux (sep : Char → Bool) : List Char → List (List Char)
  | [] => [[]]
  | c :: rest =>
      let r := splitCharAux sep rest
      if sep c then [] :: r
      else
        match r with
        | [] => [[c]]
        | h :: t => (c :: h) :: t

/-- Python `s.split("-")`. -/
def pySplitDash (s : String) : List String :=
  (splitCharAux (fun c => c = '-') s.data).map (fun l => ⟨l⟩)

/-- Python `str.split()` with no argument: split on whitespace, dropping
empty pieces. -/
def pySplitWs (s : String) : List String :=
  ((splitCharAux (fun c => c.isWhitespace) s.data).map (fun l => (⟨l⟩ : String))).filter
    (fun p => p ≠ "")

/-- Python `str.strip()` (ASCII whitespace). -/
def pyStrip (s : String) : String :=
  ⟨((s.data.dropWhile Char.isWhitespace).reverse.dropWhile Char.isWhitespace).reverse⟩

/-- Python `sep.join(parts)`. -/
def pyJoin (sep : String) (parts : List String) : String :=
  match parts with
  | [] => ""
  | p :: rest => rest.foldl (fun acc q => acc ++ sep ++ q) p

/-- Lexicographic comparison of strings by character code, Python `<`. -/
def strLt : List Char → List Char → Bool
  | [], [] => false
  | [], _ :: _ => true
  | _ :: _, [] => false
  | a :: as, b :: bs => if a < b then true else if b < a then false else strLt as bs

/-! ## Key-sequence codec (embedding of `pymacs/keymap.py`) -/

/-- `MODIFIER_ORDER` from `keymap.py`. -/
def MODIFIER_ORDER : List String := ["C", "M", "S"]

/-- `MODIFIER_ALIASES` from `keymap.py`, as an association list. -/
def MODIFIER_ALIASES : List (String × String) :=
  [("C", "C"), ("CTRL", "C"), ("CONTROL", "C"),
   ("M", "M"), ("META", "M"), ("ALT", "M"),
   ("S", "S"), ("SHIFT", "S")]

/-- A canonical key sequence: a list of canonical chord tokens. -/
abbrev KeySeq := List String

/-- The modifier-collection loop of `_parse_chord`: maps each raw modifier
through `MODIFIER_ALIASES` (after upper-casing) and appends it to the
accumulator unless already present. -/
def collectMods : List String → List String → Except String (List String)
  | [], acc => .ok acc
  | raw :: rest, acc =>
      match alookup MODIFIER_ALIASES (pyUpper raw) with
      | none => .error ("unknown key modifier: " ++ raw)
      | some m => collectMods rest (if acc.contains m then acc else acc ++ [m])

/-- Embedding of `_parse_chord` from `keymap.py`. -/
def parse_chord (token : String) : Except String String :=
  let t := pyStrip token
  if t = "" then .error "empty key token"
  else
    let parts := pySplitDash t
    if parts.any (fun p => p = "") then .error ("invalid key token: " ++ t)
    else
      match parts.getLast? with
      | none => .error ("missing key in token: " ++ t)
      | some base =>
          match collectMods parts.dropLast [] with
          | .error e => .error e
          | .ok mods =>
              let ordered := MODIFIER_ORDER.filter (fun m => mods.contains m)
              let key := pyLower base
              if ordered.isEmpty then .ok key
              else .ok (pyJoin "-" (ordered ++ [key]))

/-- Monadic map of `parse_chord` over the tokens. -/
def parseChords : List String → Except String KeySeq
  | [] => .ok []
  | tok :: rest =>
      match parse_chord tok with
      | .error e => .error e
      | .ok c =>
          match parseChords rest with
          | .error e => .error e
          | .ok cs => .ok (c :: cs)

/-- Embedding of `parse_key_sequence` from `keymap.py`, string input. -/
def parse_key_sequence (sequence : String) : Except String KeySeq :=
  let tokens := pySplitWs sequence
  if tokens.isEmpty then .error "empty key sequence"
  else parseChords tokens

/-- Embedding of `parse_key_sequence` on a list of chord strings. -/
def parse_key_sequence_list (sequence : List String) : Except String KeySeq :=
  let tokens := sequence.map pyStrip
  if tokens.isEmpty then .error "empty key sequence"
  else parseChords tokens

/-- Embedding of `format_key_sequence` from `keymap.py`. -/
def format_key_sequence (sequence : KeySeq) : String :=
  pyJoin " " sequence

/-! ### Canonicalization of chords (claim C5)

`chordAbs` abstracts a raw chord string to its semantic content: which of the
three modifiers (Control, Meta, Shift) are present — regardless of alias,
case, order or duplication — plus the lower-cased base key.  Two chord
strings "differ only in modifier case, order, alias, duplication, or
base-key case" exactly when they have the same abstraction. -/

/-- The set of canonical modifiers denoted by a raw modifier list, as a
`(Control, Meta, Shift)` triple; `none` if some modifier is unknown. -/
def modsOf : List String → Option (Bool × Bool × Bool)
  | [] => some (false, false, false)
  | raw :: rest =>
      match alookup MODIFIER_ALIASES (pyUpper raw) with
      | none => none
      | some m =>
          match modsOf rest with
          | none => none
          | some (c, mm, s) =>
              some (c || (m == "C"), mm || (m == "M"), s || (m == "S"))

/-- Abstraction of a chord string: modifier triple plus lower-cased base. -/
def chordAbs (token : String) : Option ((Bool × Bool × Bool) × String) :=
  let t := pyStrip token
  if t = "" then none
  else
    let parts := pySplitDash t
    if parts.any (fun p => p = "") then none
    else
      match parts.getLast? with
      | none => none
      | some base =>
          match modsOf parts.dropLast with
          | none => none
          | some trip => some (trip, pyLower base)

/-- The canonical printed form of an abstract chord: modifiers in the fixed
priority order Control, Meta, Shift, joined with `-`, then the lower-cased
base key. -/
def canonChord : (Bool × Bool × Bool) × String → String
  | ((c, m, s), base) =>
      let ordered :=
        (if c then ["C"] else []) ++ (if m then ["M"] else []) ++ (if s then ["S"] else [])
      if ordered.isEmpty then base else pyJoin "-" (ordered ++ [base])

theorem alias_val {u v : String} (h : alookup MODIFIER_ALIASES u = some v) :
    v = "C" ∨ v = "M" ∨ v = "S" := by
  simp only [ MODIFIER_ALIASES, alookup_cons] at h
  split_ifs at h <;> simp_all

theorem contains_update (acc : List String) (m0 x : String) :
    ((if acc.contains m0 then acc else acc ++ [m0]).contains x) =
      (acc.contains x || (m0 == x)) := by
  by_cases h : m0 ∈ acc
  · by_cases h2 : m0 = x
    · subst h2
      simp [h]
    · have hbe : (m0 == x) = false := beq_eq_false_iff_ne.mpr h2
      simp [h, hbe]
  · by_cases h2 : m0 = x
    · subst h2
      simp [h]
    · have hbe : (m0 == x) = false := beq_eq_false_iff_ne.mpr h2
      have h2s : ¬ x = m0 := fun hh => h2 hh.symm
      simp [h, hbe, h2s]

theorem collectMods_modsOf (raw : List String) :
    ∀ (acc : List String) (c m s : Bool), modsOf raw = some (c, m, s) →
      ∃ mods, collectMods raw acc = .ok mods ∧
        mods.contains "C" = (acc.contains "C" || c) ∧
        mods.contains "M" = (acc.contains "M" || m) ∧
        mods.contains "S" = (acc.contains "S" || s) := by
  induction raw with
  | nil =>
      intro acc c m s h
      simp only [modsOf, Option.some.injEq, Prod.mk.injEq] at h
      obtain ⟨hc, hm, hs⟩ := h
      exact ⟨acc, rfl, by simp [← hc], by simp [← hm], by simp [← hs]⟩
  | cons hd tl ih =>
      intro acc c m s h
      simp only [modsOf] at h
      cases halias : alookup MODIFIER_ALIASES (pyUpper hd) with
      | none => rw [halias] at h; cases h
      | some m0 =>
          rw [halias] at h
          cases hrest : modsOf tl with
          | none => rw [hrest] at h; cases h
          | some trip =>
              obtain ⟨c', m', s'⟩ := trip
              rw [hrest] at h
              simp only [Option.some.injEq, Prod.mk.injEq] at h
              obtain ⟨hc, hm, hs⟩ := h
              obtain ⟨mods, hcoll, hC, hM, hS⟩ :=
                ih (if acc.contains m0 then acc else acc ++ [m0]) c' m' s' hrest
              refine ⟨mods, ?_, ?_, ?_, ?_⟩
              · simp only [collectMods, halias]
                exact hcoll
              · rw [hC, contains_update, ← hc]
                cases acc.contains "C" <;> cases c' <;> simp [Bool.or_comm]
              · rw [hM, contains_update, ← hm]
                cases acc.contains "M" <;> cases m' <;> simp [Bool.or_comm]
              · rw [hS, contains_update, ← hs]
                cases acc.contains "S" <;> cases s' <;> simp [Bool.or_comm]

/-- `parse_chord` is fully determined by the chord abstraction: it prints the
canonical form of the abstract chord. -/
theorem parse_chord_eq_canon (t : String) (a : (Bool × Bool × Bool) × String)
    (h : chordAbs t = some a) : parse_chord t = .ok (canonChord a) := by
  obtain ⟨⟨c, m, s⟩, base⟩ := a
  simp only [chordAbs] at h
  by_cases h1 : pyStrip t = ""
  · simp [h1] at h
  · rw [if_neg h1] at h
    by_cases h2 : (pySplitDash (pyStrip t)).any (fun p => p = "")
    · simp [h2] at h
    · rw [if_neg h2] at h
      cases hlast : (pySplitDash (pyStrip t)).getLast? with
      | none => rw [hlast] at h; cases h
      | some b0 =>
          rw [hlast] at h
          cases hmods : modsOf (pySplitDash (pyStrip t)).dropLast with
          | none => rw [hmods] at h; cases h
          | some trip =>
              obtain ⟨c0, m0, s0⟩ := trip
              rw [hmods] at h
              simp only [Option.some.injEq, Prod.mk.injEq] at h
              obtain ⟨⟨hc, hm, hs⟩, hb⟩ := h
              obtain ⟨mods, hcoll, hC, hM, hS⟩ :=
                collectMods_modsOf _ [] c0 m0 s0 hmods
              simp only [parse_chord, if_neg h1, if_neg h2, hlast, hcoll]
              simp only [List.contains_nil, Bool.false_or] at hC hM hS
              have hfilter : MODIFIER_ORDER.filter (fun x => mods.contains x) =
                  (if c then ["C"] else []) ++ (if m then ["M"] else []) ++
                    (if s then ["S"] else []) := by
                simp only [ MODIFIER_ORDER, List.filter, hC, hM, hS, hc, hm, hs]
                cases c <;> cases m <;> cases s <;> rfl
              rw [hfilter, hb, canonChord]
              split_ifs <;> rfl

/-- Claim C5: two valid chord strings that differ only in modifier case,
modifier order, modifier alias, modifier duplication, or base-key case
(i.e. that have the same chord abstraction) parse to the identical canonical
chord, namely the modifiers in the fixed priority order Control, Meta, Shift
joined with `-`, followed by the lower-cased base key. -/
theorem pymacs_C5_codec_canonical (t1 t2 : String) (a : (Bool × Bool × Bool) × String)
    (h1 : chordAbs t1 = some a) (h2 : chordAbs t2 = some a) :
    parse_chord t1 = parse_chord t2 ∧ parse_chord t1 = .ok (canonChord a) := by
  rw [parse_chord_eq_canon t1 a h1, parse_chord_eq_canon t2 a h2]
  exact ⟨rfl, rfl⟩

/-- Witness for C5: `ctrl-x`, `C-x` and `Control-X` all abstract to
Control + `x` and all parse to the canonical chord `C-x`. -/
theorem pymacs_C5_codec_canonical_witness :
    parse_chord "ctrl-x" = parse_chord "Control-X" ∧
      parse_chord "ctrl-x" = .ok "C-x" ∧ parse_chord "C-x" = .ok "C-x" := by
  have ha := pymacs_C5_codec_canonical "ctrl-x" "Control-X" ((true, false, false), "x")
    (by decide) (by decide)
  have hb := pymacs_C5_codec_canonical "C-x" "Control-X" ((true, false, false), "x")
    (by decide) (by decide)
  refine ⟨ha.1, ha.2.trans (by decide), hb.2.trans (by decide)⟩

/-! ## Workspace model (embedding of `pymacs/state.py`) -/

/-- `LayoutRef = tuple[str, int]`: a tagged reference into the layout tree. -/
inductive LayoutRef : Type where
  | window (id : Nat)
  | split (id : Nat)
deriving DecidableEq, Repr

/-- Leaf window in the layout tree. -/
structure Window where
  id : Nat
  buffer : String
deriving DecidableEq, Repr

/-- Binary split node in the layout tree. -/
structure SplitNode where
  id : Nat
  axis : String
  first : LayoutRef
  second : LayoutRef
deriving DecidableEq, Repr

/-- Runtime mutable editor state (`EditorState` dataclass). -/
structure EditorState where
  buffers : List (String × String)
  global_keymap : List (KeySeq × String)
  buffer_keymaps : List (String × List (KeySeq × String))
  mode_keymaps : List (String × List (KeySeq × String))
  buffer_modes : List (String × List String)
  windows : List (Nat × Window)
  splits : List (Nat × SplitNode)
  layout_root : LayoutRef
  selected_window_id : Nat
  next_window_id : Nat
  next_split_id : Nat
  window_points : List (Nat × List (String × Nat))
  buffer_history : List String
deriving DecidableEq, Repr

/-- The default field values of the `EditorState` dataclass. -/
def initState : EditorState where
  buffers := [("*scratch*", "")]
  global_keymap := []
  buffer_keymaps := []
  mode_keymaps := []
  buffer_modes := []
  windows := [(1, ⟨1, "*scratch*"⟩)]
  splits := []
  layout_root := .window 1
  selected_window_id := 1
  next_window_id := 2
  next_split_id := 1
  window_points := [(1, [("*scratch*", 0)])]
  buffer_history := ["*scratch*"]

/-- `ensure_buffer`: create the buffer empty if absent. -/
def ensure_buffer (st : EditorState) (buffer_name : String) : EditorState :=
  match alookup st.buffers buffer_name with
  | some _ => st
  | none => { st with buffers := aset st.buffers buffer_name "" }

/-- `mark_buffer_recent`: move the buffer to the head of the MRU history. -/
def mark_buffer_recent (st : EditorState) (buffer_name : String) : EditorState :=
  let st := ensure_buffer st buffer_name
  { st with
      buffer_history := buffer_name :: st.buffer_history.filter (fun i => i ≠ buffer_name) }

/-- `recent_buffer(exclude=...)`: first history entry that is a live,
non-excluded buffer; else the first non-excluded buffer in store order. -/
def recent_buffer (st : EditorState) (exclude : List String) : Option String :=
  match st.buffer_history.find?
      (fun n => decide (n ∉ exclude) && (alookup st.buffers n).isSome) with
  | some n => some n
  | none => (akeys st.buffers).find? (fun n => decide (n ∉ exclude))

/-- `_ensure_window_point`: make sure the window has a point entry (0 by
default) for the buffer, creating the buffer first if needed. -/
def ensure_window_point (st : EditorState) (window_id : Nat) (buffer_name : String) :
    EditorState :=
  let st := ensure_buffer st buffer_name
  let pts := (alookup st.window_points window_id).getD []
  let pts' :=
    match alookup pts buffer_name with
    | some _ => pts
    | none => aset pts buffer_name 0
  { st with window_points := aset st.window_points window_id pts' }

/-- `selected_buffer`: the buffer shown in the selected window, with the
ensure-side-effects; `none` models the `KeyError` on a missing window. -/
def selected_buffer (st : EditorState) : Option (String × EditorState) :=
  match alookup st.windows st.selected_window_id with
  | none => none
  | some w =>
      let st := ensure_buffer st w.buffer
      let st := ensure_window_point st w.id w.buffer
      some (w.buffer, st)

/-- `window_buffer`: the buffer shown in a window (plus ensure side effect). -/
def window_buffer (st : EditorState) (window_id : Nat) : Option (String × EditorState) :=
  match alookup st.windows window_id with
  | none => none
  | some w => some (w.buffer, ensure_buffer st w.buffer)

/-- `_window_point`: read the clamped point of a window for a buffer, writing
the clamped value back. -/
def window_point (st : EditorState) (window_id : Nat) (buffer_name : String) :
    Option (Nat × EditorState) :=
  let st := ensure_window_point st window_id buffer_name
  match alookup st.window_points window_id with
  | none => none
  | some pts =>
      match alookup pts buffer_name with
      | none => none
      | some point =>
          match alookup st.buffers buffer_name with
          | none => none
          | some text =>
              let clamped := max 0 (min point text.length)
              some (clamped,
                { st with
                    window_points :=
                      aset st.window_points window_id (aset pts buffer_name clamped) })

/-- `window_cursor`: the clamped cursor of a window. -/
def window_cursor (st : EditorState) (window_id : Nat) : Option (Nat × EditorState) :=
  match window_buffer st window_id with
  | none => none
  | some (buffer_name, st) => window_point st window_id buffer_name

/-- `set_window_cursor`: store the cursor clamped into `[0, len(text)]`. -/
def set_window_cursor (st : EditorState) (window_id : Nat) (cursor : Int) :
    Option EditorState :=
  match window_buffer st window_id with
  | none => none
  | some (buffer_name, st) =>
      match alookup st.buffers buffer_name with
      | none => none
      | some text =>
          let val : Int := max 0 (min cursor (text.length : Int))
          let pts := (alookup st.window_points window_id).getD []
          some { st with
                   window_points :=
                     aset st.window_points window_id (aset pts buffer_name val.toNat) }

/-- `set_current_text`: replace the selected buffer's text and re-clamp the
stored point of every window that has a point entry for that buffer. -/
def set_current_text (st : EditorState) (text : String) : Option EditorState :=
  match selected_buffer st with
  | none => none
  | some (buffer_name, st) =>
      let st := { st with buffers := aset st.buffers buffer_name text }
      let tl := text.length
      some { st with
               window_points := st.window_points.map (fun wp =>
                 (wp.1,
                  match alookup wp.2 buffer_name with
                  | none => wp.2
                  | some p => aset wp.2 buffer_name (max 0 (min p tl)))) }

/-- `set_current_cursor`: set the selected window's cursor. -/
def set_current_cursor (st : EditorState) (cursor : Int) : Option EditorState :=
  set_window_cursor st st.selected_window_id cursor

/-- `set_window_buffer`: rebind a window to a buffer (creating it), ensure a
point entry, and mark the buffer most recently used. -/
def set_window_buffer (st : EditorState) (window_id : Nat) (buffer_name : String) :
    Option EditorState :=
  let st := ensure_buffer st buffer_name
  match alookup st.windows window_id with
  | none => none
  | some w =>
      let st := { st with windows := aset st.windows window_id { w with buffer := buffer_name } }
      let st := ensure_window_point st window_id buffer_name
      some (mark_buffer_recent st buffer_name)

/-! ### Layout-tree traversals

The Python traversals recurse through the `splits` dict; the embedding uses
an explicit fuel argument (`splits.length + 1` bounds the depth of any
well-formed layout), returning `none` when the fuel runs out or a split id is
missing (where Python would recurse forever or raise `KeyError`). -/

/-- Fuel sufficient for any well-formed layout over these splits. -/
def layoutFuel (splits : List (Nat × SplitNode)) : Nat := splits.length + 1

/-- `_walk_windows`: depth-first, first-child-first list of window ids. -/
def walk_windows (splits : List (Nat × SplitNode)) : Nat → LayoutRef → Option (List Nat)
  | 0, _ => none
  | _ + 1, .window i => some [i]
  | fuel + 1, .split i =>
      match alookup splits i with
      | none => none
      | some sp =>
          match walk_windows splits fuel sp.first, walk_windows splits fuel sp.second with
          | some a, some b => some (a ++ b)
          | _, _ => none

/-- `window_list`. -/
def window_list (st : EditorState) : Option (List Nat) :=
  walk_windows st.splits (layoutFuel st.splits) st.layout_root

/-- `_first_window`: left-most window of a subtree. -/
def first_window (splits : List (Nat × SplitNode)) : Nat → LayoutRef → Option Nat
  | 0, _ => none
  | _ + 1, .window i => some i
  | fuel + 1, .split i =>
      match alookup splits i with
      | none => none
      | some sp => first_window splits fuel sp.first

/-- `_replace_ref`: replace every occurrence of `target` (checked before
descending, so a replaced subtree is never entered) by `repl`, mutating the
split store exactly as the Python object mutation does. -/
def replace_ref :
    Nat → List (Nat × SplitNode) → LayoutRef → LayoutRef → LayoutRef →
      Option (LayoutRef × List (Nat × SplitNode))
  | 0, _, _, _, _ => none
  | fuel + 1, splits, ref, target, repl =>
      if ref = target then some (repl, splits)
      else
        match ref with
        | .window _ => some (ref, splits)
        | .split i =>
            match alookup splits i with
            | none => none
            | some sp =>
                match replace_ref fuel splits sp.first target repl with
                | none => none
                | some (f', splits1) =>
                    let splits2 := aset splits1 i { sp with first := f' }
                    match replace_ref fuel splits2 sp.second target repl with
                    | none => none
                    | some (s', splits3) =>
                        match alookup splits3 i with
                        | none => none
                        | some sp2 => some (ref, aset splits3 i { sp2 with second := s' })

/-- `_find_parent`: the outer `Option` models fuel/`KeyError`, the inner one
is the function's own return (`none` means "not found / no parent"). -/
def find_parent :
    Nat → List (Nat × SplitNode) → LayoutRef → LayoutRef → Option (Nat × String) →
      Option (Option (Nat × String))
  | 0, _, _, _, _ => none
  | fuel + 1, splits, ref, target, parent =>
      if ref = target then some parent
      else
        match ref with
        | .window _ => some none
        | .split i =>
            match alookup splits i with
            | none => none
            | some sp =>
                match find_parent fuel splits sp.first target (some (i, "first")) with
                | none => none
                | some (some res) => some (some res)
                | some none => find_parent fuel splits sp.second target (some (i, "second"))

/-- `split_selected_window`. -/
def split_selected_window (st : EditorState) (axis : String) :
    Except String (EditorState × Nat) :=
  if axis ≠ "below" ∧ axis ≠ "right" then .error ("unknown split axis: " ++ axis)
  else
    let selected_id := st.selected_window_id
    let selected_ref := LayoutRef.window selected_id
    match selected_buffer st with
    | none => .error "KeyError"
    | some (selBuf, st) =>
        match window_cursor st selected_id with
        | none => .error "KeyError"
        | some (selPoint, st) =>
            let new_window_id := st.next_window_id
            let st := { st with next_window_id := st.next_window_id + 1 }
            let st := { st with windows := aset st.windows new_window_id ⟨new_window_id, selBuf⟩ }
            let st := { st with window_points := aset st.window_points new_window_id [(selBuf, selPoint)] }
            let split_id := st.next_split_id
            let st := { st with next_split_id := st.next_split_id + 1 }
            let split_ref := LayoutRef.split split_id
            let st := { st with
              splits := aset st.splits split_id ⟨split_id, axis, selected_ref, .window new_window_id⟩ }
            match replace_ref (layoutFuel st.splits) st.splits st.layout_root selected_ref split_ref with
            | none => .error "KeyError"
            | some (root', splits') =>
                .ok ({ st with layout_root := root', splits := splits' }, new_window_id)

/-- `delete_window`. -/
def delete_window (st : EditorState) : Except String (EditorState × Nat) :=
  match window_list st with
  | none => .error "KeyError"
  | some windows =>
      if windows.length ≤ 1 then .error "cannot delete the only window"
      else
        let selected := st.selected_window_id
        let target_ref := LayoutRef.window selected
        match find_parent (layoutFuel st.splits) st.splits st.layout_root target_ref none with
        | none => .error "KeyError"
        | some none => .error "cannot resolve parent split for selected window"
        | some (some (parent_id, side)) =>
            match alookup st.splits parent_id with
            | none => .error "KeyError"
            | some parent_node =>
                let sibling_ref :=
                  if side = "first" then parent_node.second else parent_node.first
                match replace_ref (layoutFuel st.splits) st.splits st.layout_root
                    (.split parent_id) sibling_ref with
                | none => .error "KeyError"
                | some (root', splits') =>
                    let st := { st with layout_root := root', splits := splits' }
                    let st := { st with windows := aremove st.windows selected }
                    let st := { st with window_points := aremove st.window_points selected }
                    let st := { st with splits := aremove st.splits parent_id }
                    match first_window st.splits (layoutFuel st.splits) sibling_ref with
                    | none => .error "KeyError"
                    | some w => .ok ({ st with selected_window_id := w }, w)

/-- The window-reassignment loop of `kill_buffer`: every window showing the
killed buffer is pointed at the replacement and given a point entry. -/
def kill_reassign (buffer_name replacement : String) :
    EditorState → List (Nat × Window) → EditorState
  | st, [] => st
  | st, (wid, w) :: rest =>
      if w.buffer = buffer_name then
        let st := { st with windows := aset st.windows wid { w with buffer := replacement } }
        let st := ensure_window_point st wid replacement
        kill_reassign buffer_name replacement st rest
      else kill_reassign buffer_name replacement st rest

/-- The removal phase of `kill_buffer`: drop the buffer's content, its
buffer-scoped keymap, its mode list, its history entries, and its
per-window point entries. -/
def kill_removals (st : EditorState) (buffer_name : String) : EditorState :=
  let st := { st with buffers := aremove st.buffers buffer_name }
  let st := { st with buffer_keymaps := aremove st.buffer_keymaps buffer_name }
  let st := { st with buffer_modes := aremove st.buffer_modes buffer_name }
  let st := { st with buffer_history := st.buffer_history.filter (fun n => n ≠ buffer_name) }
  { st with
    window_points := st.window_points.map (fun wp => (wp.1, aremove wp.2 buffer_name)) }

/-- `kill_buffer`. -/
def kill_buffer (st : EditorState) (buffer_name : String) :
    Except String (EditorState × String) :=
  match alookup st.buffers buffer_name with
  | none => .error ("unknown buffer: " ++ buffer_name)
  | some _ =>
      let st := kill_removals st buffer_name
      let repl :=
        match recent_buffer st [buffer_name] with
        | some r => r
        | none => "*scratch*"
      let st :=
        match recent_buffer st [buffer_name] with
        | some _ => st
        | none => ensure_buffer st "*scratch*"
      let st := kill_reassign buffer_name repl st st.windows
      let st := mark_buffer_recent st repl
      .ok (st, repl)

/-! ### Specification-level layout trees

`LTree` is the pure binary tree denoted by a `(layout_root, splits)` pair;
`Reps splits ref t` says reference `ref` denotes tree `t` over the split
store, and `reify` is its executable counterpart. -/

inductive LTree : Type where
  | leaf (w : Nat)
  | node (i : Nat) (axis : String) (l r : LTree)
deriving DecidableEq, Repr

/-- Window ids of the tree, left-to-right depth-first. -/
def leaves : LTree → List Nat
  | .leaf w => [w]
  | .node _ _ l r => leaves l ++ leaves r

/-- Split ids of the tree. -/
def splitIds : LTree → List Nat
  | .leaf _ => []
  | .node i _ l r => i :: (splitIds l ++ splitIds r)

/-- Number of split nodes. -/
def numNodes : LTree → Nat
  | .leaf _ => 0
  | .node _ _ l r => numNodes l + numNodes r + 1

/-- Left-most window id. -/
def leftmostLeaf : LTree → Nat
  | .leaf w => w
  | .node _ _ l _ => leftmostLeaf l

/-- `Reps splits ref t`: `ref` denotes the finite tree `t` over `splits`. -/
inductive Reps (splits : List (Nat × SplitNode)) : LayoutRef → LTree → Prop where
  | window (i : Nat) : Reps splits (.window i) (.leaf i)
  | split (i : Nat) (sp : SplitNode) (l r : LTree) :
      alookup splits i = some sp →
      Reps splits sp.first l → Reps splits sp.second r →
      Reps splits (.split i) (.node i sp.axis l r)

/-- Executable reification of a layout reference into a tree. -/
def reify (splits : List (Nat × SplitNode)) : Nat → LayoutRef → Option LTree
  | 0, _ => none
  | _ + 1, .window i => some (.leaf i)
  | fuel + 1, .split i =>
      match alookup splits i with
      | none => none
      | some sp =>
          match reify splits fuel sp.first, reify splits fuel sp.second with
          | some l, some r => some (.node i sp.axis l r)
          | _, _ => none

theorem reify_reps (splits : List (Nat × SplitNode)) :
    ∀ (fuel : Nat) (ref : LayoutRef) (t : LTree),
      reify splits fuel ref = some t → Reps splits ref t := by
  intro fuel
  induction fuel with
  | zero => intro ref t h; simp [reify] at h
  | succ n ih =>
      intro ref t h
      cases ref with
      | window i =>
          simp only [reify, Option.some.injEq] at h
          rw [← h]
          exact Reps.window i
      | split i =>
          cases hsp : alookup splits i with
          | none => simp [reify, hsp] at h
          | some sp =>
              cases hl : reify splits n sp.first with
              | none => simp [reify, hsp, hl] at h
              | some l =>
                  cases hr : reify splits n sp.second with
                  | none => simp [reify, hsp, hl, hr] at h
                  | some r =>
                      simp only [reify, hsp, hl, hr, Option.some.injEq] at h
                      rw [← h]
                      exact Reps.split i sp l r hsp (ih _ _ hl) (ih _ _ hr)

/-- `Reps` only depends on the entries at the tree's own split ids. -/
theorem reps_mono {splits splits' : List (Nat × SplitNode)} {ref : LayoutRef} {t : LTree}
    (h : Reps splits ref t)
    (hsame : ∀ i ∈ splitIds t, alookup splits' i = alookup splits i) :
    Reps splits' ref t := by
  induction h with
  | window i => exact Reps.window i
  | split i sp l r hsp hl hr ihl ihr =>
      refine Reps.split i sp l r ?_ ?_ ?_
      · rw [hsame i (by simp [splitIds])]
        exact hsp
      · exact ihl (fun j hj => hsame j (by simp [splitIds, hj]))
      · exact ihr (fun j hj => hsame j (by simp [splitIds, hj]))

theorem reps_splitIds_mem {splits : List (Nat × SplitNode)} {ref : LayoutRef} {t : LTree}
    (h : Reps splits ref t) : ∀ i ∈ splitIds t, i ∈ akeys splits := by
  induction h with
  | window i => simp [splitIds]
  | split i sp l r hsp hl hr ihl ihr =>
      intro j hj
      simp only [splitIds, List.mem_cons, List.mem_append] at hj
      rcases hj with hj | hj | hj
      · subst hj
        by_contra hmem
        rw [← alookup_eq_none_iff] at hmem
        rw [hmem] at hsp
        cases hsp
      · exact ihl j hj
      · exact ihr j hj

theorem walk_windows_eq {splits : List (Nat × SplitNode)} {ref : LayoutRef} {t : LTree}
    (h : Reps splits ref t) :
    ∀ fuel, numNodes t < fuel → walk_windows splits fuel ref = some (leaves t) := by
  induction h with
  | window i =>
      intro fuel hf
      cases fuel with
      | zero => cases hf
      | succ n => rfl
  | split i sp l r hsp hl hr ihl ihr =>
      intro fuel hf
      cases fuel with
      | zero => cases hf
      | succ n =>
          have hln : numNodes l < n := by
            simp only [numNodes] at hf; omega
          have hrn : numNodes r < n := by
            simp only [numNodes] at hf; omega
          simp only [walk_windows, hsp, ihl n hln, ihr n hrn, leaves]

theorem first_window_eq {splits : List (Nat × SplitNode)} {ref : LayoutRef} {t : LTree}
    (h : Reps splits ref t) :
    ∀ fuel, numNodes t < fuel → first_window splits fuel ref = some (leftmostLeaf t) := by
  induction h with
  | window i =>
      intro fuel hf
      cases fuel with
      | zero => cases hf
      | succ n => rfl
  | split i sp l r hsp hl hr ihl ihr =>
      intro fuel hf
      cases fuel with
      | zero => cases hf
      | succ n =>
          have hln : numNodes l < n := by
            simp only [numNodes] at hf; omega
          simp only [first_window, hsp, ihl n hln, leftmostLeaf]

theorem numNodes_eq_length_splitIds (t : LTree) : numNodes t = (splitIds t).length := by
  induction t with
  | leaf w => rfl
  | node i ax l r ihl ihr =>
      simp only [numNodes, splitIds, List.length_cons, List.length_append, ihl, ihr]

/-- Substitute `u` for (every outermost occurrence of) the subtree referenced
by `tgt`; this is the tree-level meaning of `_replace_ref`. -/
def substAt : LTree → LayoutRef → LTree → LTree
  | .leaf w, tgt, u => if LayoutRef.window w = tgt then u else .leaf w
  | .node i ax l r, tgt, u =>
      if LayoutRef.split i = tgt then u
      else .node i ax (substAt l tgt u) (substAt r tgt u)

/-- The split ids actually visited by `_replace_ref` (a replaced subtree is
never entered). -/
def visIds : LTree → LayoutRef → List Nat
  | .leaf _, _ => []
  | .node i _ l r, tgt =>
      if LayoutRef.split i = tgt then [] else i :: (visIds l tgt ++ visIds r tgt)

/-- Substitution performed on a single child reference. -/
def childSubst (tgt repl c : LayoutRef) : LayoutRef := if c = tgt then repl else c

/-- Entry rewrite performed by `_replace_ref` on a visited split. -/
def spSubst (tgt repl : LayoutRef) (sp : SplitNode) : SplitNode :=
  { sp with first := childSubst tgt repl sp.first, second := childSubst tgt repl sp.second }

theorem visIds_subset (t : LTree) (tgt : LayoutRef) : visIds t tgt ⊆ splitIds t := by
  induction t with
  | leaf w => simp [visIds]
  | node i ax l r ihl ihr =>
      by_cases h : LayoutRef.split i = tgt
      · simp [visIds, h, List.nil_subset]
      · simp only [visIds, if_neg h, splitIds]
        intro j hj
        simp only [List.mem_cons, List.mem_append] at hj ⊢
        rcases hj with hj | hj | hj
        · exact Or.inl hj
        · exact Or.inr (Or.inl (ihl hj))
        · exact Or.inr (Or.inr (ihr hj))

/-- Full characterization of `_replace_ref`: it returns the reference with
`target` substituted at the top, leaves the key set untouched, and rewrites
exactly the visited splits' child references. -/
theorem replace_ref_char {tgt repl : LayoutRef} :
    ∀ (t : LTree) (splits : List (Nat × SplitNode)) (ref : LayoutRef) (fuel : Nat),
      Reps splits ref t → (splitIds t).Nodup → numNodes t < fuel →
      ∃ splits',
        replace_ref fuel splits ref tgt repl = some (childSubst tgt repl ref, splits') ∧
        akeys splits' = akeys splits ∧
        ∀ j, alookup splits' j =
          if j ∈ visIds t tgt then (alookup splits j).map (spSubst tgt repl)
          else alookup splits j := by
  intro t
  induction t with
  | leaf w =>
      intro splits ref fuel hreps hnd hf
      cases hreps
      cases fuel with
      | zero => cases hf
      | succ n =>
          refine ⟨splits, ?_, rfl, ?_⟩
          · by_cases he : LayoutRef.window w = tgt
            · simp [replace_ref, he, childSubst]
            · simp [replace_ref, he, childSubst]
          · intro j
            simp [visIds]
  | node i ax l r ihl ihr =>
      intro splits ref fuel hreps hnd hf
      cases hreps with
      | split _ sp _ _ hsp hl hr =>
          simp only [splitIds, List.nodup_cons, List.mem_cons, List.mem_append,
            List.nodup_append] at hnd
          obtain ⟨hi, hndl, hndr, hdisj⟩ := hnd
          have hil : i ∉ splitIds l := fun hmem => hi (Or.inl hmem)
          have hir : i ∉ splitIds r := fun hmem => hi (Or.inr hmem)
          by_cases htop : LayoutRef.split i = tgt
          · cases fuel with
            | zero => cases hf
            | succ n =>
                refine ⟨splits, ?_, rfl, ?_⟩
                · simp [replace_ref, htop, childSubst]
                · intro j
                  simp [visIds, htop]
          · cases fuel with
            | zero => cases hf
            | succ n =>
                have hfl : numNodes l < n := by
                  simp only [numNodes] at hf; omega
                have hfr : numNodes r < n := by
                  simp only [numNodes] at hf; omega
                obtain ⟨splits1, hrun1, hkeys1, hchar1⟩ := ihl splits sp.first n hl hndl hfl
                have hreps2 : Reps (aset splits1 i { sp with first := childSubst tgt repl sp.first })
                    sp.second r := by
                  apply reps_mono hr
                  intro j hj
                  have hji : ¬ i = j := fun he => hir (he ▸ hj)
                  rw [alookup_aset, if_neg hji, hchar1 j,
                    if_neg (fun hv => hdisj (visIds_subset l tgt hv) hj)]
                obtain ⟨splits3, hrun3, hkeys3, hchar3⟩ :=
                  ihr (aset splits1 i { sp with first := childSubst tgt repl sp.first })
                    sp.second n hreps2 hndr hfr
                have hi3 : alookup splits3 i =
                    some { sp with first := childSubst tgt repl sp.first } := by
                  rw [hchar3 i, if_neg (fun hv => hir (visIds_subset r tgt hv)),
                    alookup_aset, if_pos rfl]
                have hmemi : i ∈ akeys splits := alookup_mem_akeys hsp
                have hmemi1 : i ∈ akeys splits1 := by rw [hkeys1]; exact hmemi
                have hmemi3 : i ∈ akeys splits3 := by
                  rw [hkeys3, akeys_aset_of_mem _ hmemi1]
                  exact hmemi1
                refine ⟨aset splits3 i (spSubst tgt repl sp), ?_, ?_, ?_⟩
                · simp only [replace_ref, if_neg htop, hsp, hrun1, hrun3, hi3]
                  simp [childSubst, htop, spSubst]
                · rw [akeys_aset_of_mem _ hmemi3, hkeys3, akeys_aset_of_mem _ hmemi1, hkeys1]
                · intro j
                  rw [alookup_aset]
                  by_cases hji : i = j
                  · subst hji
                    have hvis : i ∈ visIds (LTree.node i sp.axis l r) tgt := by
                      simp [visIds, htop]
                    rw [if_pos rfl, if_pos hvis, hsp]
                    rfl
                  · rw [if_neg hji, hchar3 j, alookup_aset, if_neg hji, hchar1 j]
                    have hjvis : j ∈ visIds (LTree.node i sp.axis l r) tgt ↔
                        j ∈ visIds l tgt ∨ j ∈ visIds r tgt := by
                      simp only [visIds, if_neg htop, List.mem_cons, List.mem_append]
                      constructor
                      · rintro (he | hv | hv)
                        · exact absurd he.symm hji
                        · exact Or.inl hv
                        · exact Or.inr hv
                      · rintro (hv | hv)
                        · exact Or.inr (Or.inl hv)
                        · exact Or.inr (Or.inr hv)
                    by_cases hjr : j ∈ visIds r tgt
                    · have hjl : j ∉ visIds l tgt :=
                        fun hv => hdisj (visIds_subset l tgt hv) (visIds_subset r tgt hjr)
                      rw [if_pos hjr, if_neg hjl, if_pos (hjvis.mpr (Or.inr hjr))]
                    · by_cases hjl : j ∈ visIds l tgt
                      · rw [if_neg hjr, if_pos hjl, if_pos (hjvis.mpr (Or.inl hjl))]
                      · rw [if_neg hjr, if_neg hjl,
                          if_neg (fun hv => by rcases hjvis.mp hv with h | h; exacts [hjl h, hjr h])]

/-- Transport of `Reps` through `_replace_ref`: over the rewritten split
store, the old reference denotes the tree with `u` substituted for the
target, provided the replacement reference denotes `u`. -/
theorem reps_substAt {splits splits' : List (Nat × SplitNode)} {tgt repl : LayoutRef}
    {u : LTree} {V : List Nat}
    (hchar : ∀ j, alookup splits' j =
      if j ∈ V then (alookup splits j).map (spSubst tgt repl) else alookup splits j)
    (hu : Reps splits' repl u) :
    ∀ {t : LTree} {ref : LayoutRef}, Reps splits ref t → visIds t tgt ⊆ V →
      Reps splits' (childSubst tgt repl ref) (substAt t tgt u) := by
  intro t ref h
  induction h with
  | window i =>
      intro _
      by_cases he : LayoutRef.window i = tgt
      · simpa [substAt, he, childSubst] using hu
      · simpa [substAt, he, childSubst] using @Reps.window splits' i
  | split i sp l r hsp hl hr ihl ihr =>
      intro hsub
      by_cases he : LayoutRef.split i = tgt
      · simpa [substAt, he, childSubst] using hu
      · have hvis : visIds (LTree.node i sp.axis l r) tgt =
            i :: (visIds l tgt ++ visIds r tgt) := by simp [visIds, he]
        have hiV : i ∈ V := hsub (by rw [hvis]; exact List.mem_cons_self _ _)
        have hsubl : visIds l tgt ⊆ V := fun j hj =>
          hsub (by rw [hvis]; exact List.mem_cons_of_mem _ (List.mem_append_left _ hj))
        have hsubr : visIds r tgt ⊆ V := fun j hj =>
          hsub (by rw [hvis]; exact List.mem_cons_of_mem _ (List.mem_append_right _ hj))
        have hsp' : alookup splits' i = some (spSubst tgt repl sp) := by
          rw [hchar i, if_pos hiV, hsp]
          rfl
        have hcs : childSubst tgt repl (LayoutRef.split i) = LayoutRef.split i := by
          simp [childSubst, he]
        rw [hcs]
        simp only [substAt, if_neg he]
        exact Reps.split i (spSubst tgt repl sp) _ _ hsp' (ihl hsubl) (ihr hsubr)

theorem leaves_substAt_window (t : LTree) (selId : Nat) (u : LTree) :
    leaves (substAt t (.window selId) u) =
      (leaves t).flatMap (fun x => if x = selId then leaves u else [x]) := by
  induction t with
  | leaf w =>
      by_cases he : w = selId
      · simp [substAt, leaves, he]
      · simp [substAt, leaves, he]
  | node i ax l r ihl ihr =>
      simp [substAt, leaves, ihl, ihr]

theorem numNodes_substAt_window (t : LTree) (selId : Nat) (u : LTree) :
    numNodes (substAt t (.window selId) u) =
      numNodes t + (leaves t).count selId * numNodes u := by
  induction t with
  | leaf w =>
      by_cases he : w = selId
      · simp [substAt, numNodes, leaves, he]
      · have he2 : ¬ selId = w := fun hh => he hh.symm
        simp [substAt, numNodes, leaves, he, List.count_cons, he2]
  | node i ax l r ihl ihr =>
      simp only [substAt, if_neg (by simp : ¬ (LayoutRef.split i = LayoutRef.window selId)),
        numNodes, leaves, List.count_append, ihl, ihr]
      ring

theorem splitIds_substAt_window (t : LTree) (selId : Nat) (u : LTree) :
    splitIds (substAt t (.window selId) u) ⊆ splitIds t ++ splitIds u := by
  induction t with
  | leaf w =>
      by_cases he : w = selId
      · simp [substAt, splitIds, he]
      · simp [substAt, splitIds, he]
  | node i ax l r ihl ihr =>
      simp only [substAt, if_neg (by simp : ¬ (LayoutRef.split i = LayoutRef.window selId)),
        splitIds]
      intro j hj
      simp only [List.mem_cons, List.mem_append] at hj ⊢
      rcases hj with hj | hj | hj
      · exact Or.inl (Or.inl hj)
      · rcases List.mem_append.mp (ihl hj) with h | h
        · exact Or.inl (Or.inr (Or.inl h))
        · exact Or.inr h
      · rcases List.mem_append.mp (ihr hj) with h | h
        · exact Or.inl (Or.inr (Or.inr h))
        · exact Or.inr h

theorem length_bind_two (l : List Nat) (s a b : Nat) :
    (l.flatMap (fun x => if x = s then [a, b] else [x])).length = l.length + l.count s := by
  induction l with
  | nil => simp
  | cons hd tl ih =>
      by_cases he : hd = s
      · simp [he, ih, List.count_cons]
        omega
      · simp [he, ih, List.count_cons]
        omega

/-! ### Effect lemmas for the ensure/cursor helpers -/

theorem length_aset_of_not_mem {α β : Type} [DecidableEq α]
    {l : List (α × β)} {k : α} (v : β) (h : k ∉ akeys l) :
    (aset l k v).length = l.length + 1 := by
  induction l with
  | nil => rfl
  | cons hd tl ih =>
      obtain ⟨k', v'⟩ := hd
      simp only [akeys, List.map_cons, List.mem_cons] at h
      push_neg at h
      have hk : ¬ k' = k := fun he => h.1 he.symm
      simp only [aset, if_neg hk, List.length_cons]
      rw [ih (by simpa [akeys] using h.2)]

theorem ensure_buffer_eq (st : EditorState) (b : String) :
    ensure_buffer st b = { st with buffers := (ensure_buffer st b).buffers } := by
  unfold ensure_buffer
  cases alookup st.buffers b <;> rfl

theorem ensure_buffer_lookup (st : EditorState) (b : String) :
    ∃ tx, alookup (ensure_buffer st b).buffers b = some tx := by
  unfold ensure_buffer
  cases h : alookup st.buffers b with
  | none => exact ⟨"", by simp [alookup_aset]⟩
  | some t => exact ⟨t, h⟩

theorem ensure_window_point_eq (st : EditorState) (wid : Nat) (b : String) :
    ensure_window_point st wid b =
      { st with
          buffers := (ensure_window_point st wid b).buffers,
          window_points := (ensure_window_point st wid b).window_points } := by
  unfold ensure_window_point
  rw [ensure_buffer_eq st b]

theorem ensure_window_point_points (st : EditorState) (wid : Nat) (b : String) :
    ∃ pts p, alookup (ensure_window_point st wid b).window_points wid = some pts ∧
      alookup pts b = some p ∧
      (∀ j, j ≠ wid →
        alookup (ensure_window_point st wid b).window_points j =
          alookup st.window_points j) ∧
      ∃ tx, alookup (ensure_window_point st wid b).buffers b = some tx := by
  unfold ensure_window_point
  obtain ⟨tx, htx⟩ := ensure_buffer_lookup st b
  cases hpts : alookup ((ensure_buffer st b).window_points) wid with
  | none =>
      refine ⟨aset [] b 0, 0, ?_, ?_, ?_, ⟨tx, ?_⟩⟩
      · simp [hpts, alookup_aset]
      · simp [alookup_aset]
      · intro j hj
        simp only [hpts, alookup_aset]
        rw [if_neg (fun he => hj he.symm)]
        rw [ensure_buffer_eq st b]
      · simp [hpts, htx]
  | some pts =>
      cases hb : alookup pts b with
      | none =>
          refine ⟨aset pts b 0, 0, ?_, ?_, ?_, ⟨tx, ?_⟩⟩
          · simp [hpts, hb, alookup_aset]
          · simp [alookup_aset]
          · intro j hj
            simp only [hpts, hb, alookup_aset]
            rw [if_neg (fun he => hj he.symm)]
            rw [ensure_buffer_eq st b]
          · simp [hpts, hb, htx]
      | some p =>
          refine ⟨pts, p, ?_, hb, ?_, ⟨tx, ?_⟩⟩
          · simp [hpts, hb, alookup_aset]
          · intro j hj
            simp only [hpts, hb, alookup_aset]
            rw [if_neg (fun he => hj he.symm)]
            rw [ensure_buffer_eq st b]
          · simp [hpts, hb, htx]

theorem selected_buffer_spec (st : EditorState) (w : Window)
    (hw : alookup st.windows st.selected_window_id = some w) :
    ∃ st1, selected_buffer st = some (w.buffer, st1) ∧
      st1.windows = st.windows ∧ st1.splits = st.splits ∧
      st1.layout_root = st.layout_root ∧
      st1.selected_window_id = st.selected_window_id ∧
      st1.next_window_id = st.next_window_id ∧
      st1.next_split_id = st.next_split_id := by
  refine ⟨ensure_window_point (ensure_buffer st w.buffer) w.id w.buffer,
    by simp only [selected_buffer, hw], ?_, ?_, ?_, ?_, ?_, ?_⟩ <;>
    rw [ensure_window_point_eq, ensure_buffer_eq st w.buffer]

theorem window_cursor_spec (st : EditorState) (wid : Nat) (w : Window)
    (hw : alookup st.windows wid = some w) :
    ∃ p st2, window_cursor st wid = some (p, st2) ∧
      st2.windows = st.windows ∧ st2.splits = st.splits ∧
      st2.layout_root = st.layout_root ∧
      st2.selected_window_id = st.selected_window_id ∧
      st2.next_window_id = st.next_window_id ∧
      st2.next_split_id = st.next_split_id ∧
      (∃ pts, alookup st2.window_points wid = some pts ∧
        alookup pts w.buffer = some p) ∧
      (∀ j, j ≠ wid → alookup st2.window_points j = alookup st.window_points j) := by
  have hwb : window_buffer st wid = some (w.buffer, ensure_buffer st w.buffer) := by
    simp only [window_buffer, hw]
  set stb := ensure_buffer st w.buffer with hstb
  obtain ⟨pts, p, hpts, hb, hfr, tx, htx⟩ := ensure_window_point_points stb wid w.buffer
  set ste := ensure_window_point stb wid w.buffer with hste
  have hbuf : alookup ste.buffers w.buffer = some tx := htx
  refine ⟨max 0 (min p tx.length),
    { ste with window_points := aset ste.window_points wid (aset pts w.buffer (max 0 (min p tx.length))) },
    ?_, ?_, ?_, ?_, ?_, ?_, ?_, ?_, ?_⟩
  · simp only [window_cursor, hwb, window_point, ← hste, hpts, hb, hbuf]
  · show ste.windows = st.windows
    rw [hste, ensure_window_point_eq, hstb, ensure_buffer_eq st w.buffer]
  · show ste.splits = st.splits
    rw [hste, ensure_window_point_eq, hstb, ensure_buffer_eq st w.buffer]
  · show ste.layout_root = st.layout_root
    rw [hste, ensure_window_point_eq, hstb, ensure_buffer_eq st w.buffer]
  · show ste.selected_window_id = st.selected_window_id
    rw [hste, ensure_window_point_eq, hstb, ensure_buffer_eq st w.buffer]
  · show ste.next_window_id = st.next_window_id
    rw [hste, ensure_window_point_eq, hstb, ensure_buffer_eq st w.buffer]
  · show ste.next_split_id = st.next_split_id
    rw [hste, ensure_window_point_eq, hstb, ensure_buffer_eq st w.buffer]
  · refine ⟨aset pts w.buffer (max 0 (min p tx.length)), ?_, ?_⟩
    · simp [alookup_aset]
    · simp [alookup_aset]
  · intro j hj
    show alookup (aset ste.window_points wid _) j = alookup st.window_points j
    rw [alookup_aset, if_neg (fun he => hj he.symm), hfr j hj]
    have : stb.window_points = st.window_points := by
      rw [hstb, ensure_buffer_eq st w.buffer]
    rw [this]

/-- Claim C2: for a well-formed workspace and axis `below` or `right`,
splitting the selected window allocates exactly one new window (the window
count grows by exactly one); the new window shows the same buffer and the
same (clamped) cursor offset as the split window; the selected window's
position in the layout tree is replaced by a split node whose children are
the old window and the new window; and the selected window id is unchanged. -/
theorem pymacs_C2_split_window (st : EditorState) (axis : String) (t : LTree) (wsel : Window)
    (haxis : axis = "below" ∨ axis = "right")
    (hreify : reify st.splits (layoutFuel st.splits) st.layout_root = some t)
    (hndS : (splitIds t).Nodup) (hndL : (leaves t).Nodup)
    (hselmem : st.selected_window_id ∈ leaves t)
    (hw : alookup st.windows st.selected_window_id = some wsel)
    (hfreshW : st.next_window_id ∉ leaves t)
    (hfreshS : st.next_split_id ∉ akeys st.splits) :
    ∃ st' selPoint,
      split_selected_window st axis = .ok (st', st.next_window_id) ∧
      st'.selected_window_id = st.selected_window_id ∧
      window_list st = some (leaves t) ∧
      window_list st' = some ((leaves t).flatMap (fun x =>
        if x = st.selected_window_id then [st.selected_window_id, st.next_window_id]
        else [x])) ∧
      ((leaves t).flatMap (fun x =>
        if x = st.selected_window_id then [st.selected_window_id, st.next_window_id]
        else [x])).length = (leaves t).length + 1 ∧
      Reps st'.splits st'.layout_root
        (substAt t (.window st.selected_window_id)
          (.node st.next_split_id axis (.leaf st.selected_window_id)
            (.leaf st.next_window_id))) ∧
      alookup st'.windows st.next_window_id = some ⟨st.next_window_id, wsel.buffer⟩ ∧
      alookup st'.window_points st.next_window_id = some [(wsel.buffer, selPoint)] ∧
      (∃ pts, alookup st'.window_points st.selected_window_id = some pts ∧
        alookup pts wsel.buffer = some selPoint) ∧
      alookup st'.windows st.selected_window_id = some wsel := by
  have hreps : Reps st.splits st.layout_root t := reify_reps _ _ _ _ hreify
  obtain ⟨st1, hsb, h1w, h1s, h1r, h1sel, h1nw, h1ns⟩ := selected_buffer_spec st wsel hw
  have hw1 : alookup st1.windows st.selected_window_id = some wsel := by
    rw [h1w]; exact hw
  obtain ⟨selP, st2, hwc, h2w, h2s, h2r, h2sel, h2nw, h2ns, ⟨pts2, hpts2, hpb2⟩, h2fr⟩ :=
    window_cursor_spec st1 st.selected_window_id wsel hw1
  have hs2 : st2.splits = st.splits := h2s.trans h1s
  have hw2 : st2.windows = st.windows := h2w.trans h1w
  have hr2 : st2.layout_root = st.layout_root := h2r.trans h1r
  have hsel2 : st2.selected_window_id = st.selected_window_id := h2sel.trans h1sel
  have hnw2 : st2.next_window_id = st.next_window_id := h2nw.trans h1nw
  have hns2 : st2.next_split_id = st.next_split_id := h2ns.trans h1ns
  have hnotaxis : ¬ (axis ≠ "below" ∧ axis ≠ "right") := by
    rcases haxis with h | h <;> simp [h]
  have hsel_ne_nw : st.selected_window_id ≠ st.next_window_id :=
    fun he => hfreshW (he ▸ hselmem)
  have hnsid_tree : st.next_split_id ∉ splitIds t :=
    fun hmem => hfreshS (reps_splitIds_mem hreps _ hmem)
  have hreps3 : Reps (aset st.splits st.next_split_id
      ⟨st.next_split_id, axis, .window st.selected_window_id, .window st.next_window_id⟩)
      st.layout_root t := by
    apply reps_mono hreps
    intro j hj
    rw [alookup_aset,
      if_neg (fun he => hfreshS (by rw [he]; exact reps_splitIds_mem hreps j hj))]
  have hlen3 : (aset st.splits st.next_split_id
      ⟨st.next_split_id, axis, .window st.selected_window_id,
        .window st.next_window_id⟩).length = st.splits.length + 1 :=
    length_aset_of_not_mem _ hfreshS
  have hnn : numNodes t ≤ st.splits.length := by
    rw [numNodes_eq_length_splitIds]
    have hsub := List.Subperm.length_le
      (List.Nodup.subperm hndS (fun j hj => reps_splitIds_mem hreps j hj))
    simpa [akeys] using hsub
  have hfuel3 : numNodes t < layoutFuel (aset st.splits st.next_split_id
      ⟨st.next_split_id, axis, .window st.selected_window_id,
        .window st.next_window_id⟩) := by
    unfold layoutFuel
    omega
  obtain ⟨splits', hrun, hkeys', hchar⟩ :=
    @replace_ref_char (.window st.selected_window_id)
      (.split st.next_split_id) t _ st.layout_root _ hreps3 hndS hfuel3
  have hnsid_lookup : alookup splits' st.next_split_id =
      some ⟨st.next_split_id, axis, .window st.selected_window_id,
        .window st.next_window_id⟩ := by
    rw [hchar, if_neg (fun hv => hnsid_tree (visIds_subset t _ hv)), alookup_aset,
      if_pos rfl]
  have hu : Reps splits' (.split st.next_split_id)
      (.node st.next_split_id axis (.leaf st.selected_window_id)
        (.leaf st.next_window_id)) :=
    Reps.split st.next_split_id
      ⟨st.next_split_id, axis, .window st.selected_window_id, .window st.next_window_id⟩
      _ _ hnsid_lookup (Reps.window st.selected_window_id) (Reps.window st.next_window_id)
  have hrepsFinal := reps_substAt hchar hu hreps3 (fun j hj => hj)
  have hlen' : splits'.length = st.splits.length + 1 := by
    have h1 : (akeys splits').length = (akeys (aset st.splits st.next_split_id
        ⟨st.next_split_id, axis, .window st.selected_window_id,
          .window st.next_window_id⟩)).length := by rw [hkeys']
    simpa [akeys, hlen3] using h1
  have hcount : (leaves t).count st.selected_window_id = 1 :=
    List.count_eq_one_of_mem hndL hselmem
  have hnnFinal : numNodes (substAt t (.window st.selected_window_id)
      (.node st.next_split_id axis (.leaf st.selected_window_id)
        (.leaf st.next_window_id))) = numNodes t + 1 := by
    rw [numNodes_substAt_window, hcount]
    simp [numNodes]
  refine ⟨{ st2 with
      next_window_id := st.next_window_id + 1,
      windows := aset st.windows st.next_window_id ⟨st.next_window_id, wsel.buffer⟩,
      window_points := aset st2.window_points st.next_window_id [(wsel.buffer, selP)],
      next_split_id := st.next_split_id + 1,
      splits := splits',
      layout_root :=
        childSubst (.window st.selected_window_id) (.split st.next_split_id)
          st.layout_root }, selP, ?_, ?_, ?_, ?_, ?_, ?_, ?_, ?_, ?_, ?_⟩
  · rw [split_selected_window, if_neg hnotaxis]
    simp only [hsb, hwc, hs2, hw2, hr2, hnw2, hns2, hrun]
  · exact hsel2
  · exact walk_windows_eq hreps (layoutFuel st.splits) (by unfold layoutFuel; omega)
  · have hleq : leaves (substAt t (.window st.selected_window_id)
        (.node st.next_split_id axis (.leaf st.selected_window_id)
          (.leaf st.next_window_id))) =
        (leaves t).flatMap (fun x =>
          if x = st.selected_window_id then [st.selected_window_id, st.next_window_id]
          else [x]) := by
      rw [leaves_substAt_window]
      rfl
    show walk_windows splits' (layoutFuel splits')
        (childSubst (.window st.selected_window_id) (.split st.next_split_id)
          st.layout_root) = _
    rw [← hleq]
    exact walk_windows_eq hrepsFinal (layoutFuel splits')
      (by unfold layoutFuel; rw [hlen', hnnFinal]; omega)
  · rw [length_bind_two, hcount]
  · exact hrepsFinal
  · show alookup (aset st.windows st.next_window_id _) _ = _
    rw [alookup_aset, if_pos rfl]
  · show alookup (aset st2.window_points st.next_window_id _) _ = _
    rw [alookup_aset, if_pos rfl]
  · refine ⟨pts2, ?_, hpb2⟩
    show alookup (aset st2.window_points st.next_window_id _) _ = _
    rw [alookup_aset, if_neg (fun he => hsel_ne_nw he.symm)]
    exact hpts2
  · show alookup (aset st.windows st.next_window_id _) _ = _
    rw [alookup_aset, if_neg (fun he => hsel_ne_nw he.symm)]
    exact hw

/-- Witness for C2 at the initial state: splitting the single scratch window
below yields window 2 with the same buffer/cursor and keeps window 1 selected. -/
theorem pymacs_C2_split_window_witness :
    ∃ st', split_selected_window initState "below" = .ok (st', 2) ∧
      st'.selected_window_id = 1 ∧ window_list st' = some [1, 2] ∧
      alookup st'.windows 2 = some ⟨2, "*scratch*"⟩ := by
  obtain ⟨st', p, h1, h2, _, h4, _, _, h7, _⟩ :=
    pymacs_C2_split_window initState "below" (.leaf 1) ⟨1, "*scratch*"⟩
      (Or.inl rfl) (by decide) (by decide) (by decide) (by decide) (by decide)
      (by decide) (by decide)
  exact ⟨st', h1, h2, h4, h7⟩

/-! ### The parent-split search of `delete_window` -/

/-- Tree-level account of `_find_parent` threading the `parent_id`/`side`
arguments exactly as the Python recursion does. -/
def findParentSpecAux (sel : Nat) : LTree → Option (Nat × String) → Option (Nat × String)
  | .leaf w, parentArg => if w = sel then parentArg else none
  | .node i _ l r, _ =>
      match findParentSpecAux sel l (some (i, "first")) with
      | some res => some res
      | none => findParentSpecAux sel r (some (i, "second"))

/-- If the target split id does not occur, substitution is the identity. -/
theorem substAt_of_not_mem (pid : Nat) (u x : LTree) (h : pid ∉ splitIds u) :
    substAt u (.split pid) x = u := by
  induction u with
  | leaf w => simp [substAt]
  | node i ax l r ihl ihr =>
      simp only [splitIds, List.mem_cons, List.mem_append] at h
      push_neg at h
      have hne : ¬ (LayoutRef.split i = LayoutRef.split pid) := by
        intro hc; cases hc; exact h.1 rfl
      simp [substAt, hne, ihl h.2.1, ihr h.2.2]

theorem leftmostLeaf_mem (t : LTree) : leftmostLeaf t ∈ leaves t := by
  induction t with
  | leaf w => simp [leftmostLeaf, leaves]
  | node i ax l r ihl ihr =>
      simp only [leftmostLeaf, leaves, List.mem_append]
      exact Or.inl ihl

theorem find_parent_eq {splits : List (Nat × SplitNode)} {ref : LayoutRef} {t : LTree}
    {sel : Nat} (h : Reps splits ref t) :
    ∀ fuel, numNodes t < fuel → ∀ parentArg,
      find_parent fuel splits ref (.window sel) parentArg =
        some (findParentSpecAux sel t parentArg) := by
  induction h with
  | window i =>
      intro fuel hf pa
      cases fuel with
      | zero => cases hf
      | succ n =>
          by_cases he : i = sel
          · simp [find_parent, findParentSpecAux, he]
          · simp [find_parent, findParentSpecAux, he]
  | split i sp l r hsp hl hr ihl ihr =>
      intro fuel hf pa
      cases fuel with
      | zero => cases hf
      | succ n =>
          have hln : numNodes l < n := by simp only [numNodes] at hf; omega
          have hrn : numNodes r < n := by simp only [numNodes] at hf; omega
          have hne : ¬ (LayoutRef.split i = LayoutRef.window sel) := by simp
          cases hA : findParentSpecAux sel l (some (i, "first")) with
          | some res =>
              simp [find_parent, hne, hsp, ihl n hln, hA, findParentSpecAux]
          | none =>
              simp [find_parent, hne, hsp, ihl n hln, hA, ihr n hrn, findParentSpecAux]

theorem reps_leaf_ref {splits : List (Nat × SplitNode)} {ref : LayoutRef} {w : Nat}
    (h : Reps splits ref (.leaf w)) : ref = .window w := by
  cases h
  rfl

theorem findParentSpecAux_not_mem {sel : Nat} :
    ∀ (t : LTree), sel ∉ leaves t → ∀ pa, findParentSpecAux sel t pa = none := by
  intro t
  induction t with
  | leaf w =>
      intro hmem pa
      have hw : ¬ w = sel := fun he => hmem (by simp [leaves, he])
      simp [findParentSpecAux, hw]
  | node i ax l r ihl ihr =>
      intro hmem pa
      simp only [leaves, List.mem_append] at hmem
      push_neg at hmem
      simp [findParentSpecAux, ihl hmem.1, ihr hmem.2]

/-- The full account of the parent-split search: for a multi-window layout
the search finds the unique split whose child is the selected leaf, and the
other child — the sibling subtree — satisfies all the facts `delete_window`
needs (representation, disjointness from the visited region, and the shape
of the tree after promoting it). -/
theorem find_parent_package {splits : List (Nat × SplitNode)} {sel : Nat} :
    ∀ {t : LTree} {ref : LayoutRef}, Reps splits ref t →
      (splitIds t).Nodup → (leaves t).Nodup → sel ∈ leaves t →
      (∃ w, t = .leaf w ∧ ∀ pa, findParentSpecAux sel t pa = pa) ∨
      (∃ pid side sib sp,
        (∀ pa, findParentSpecAux sel t pa = some (pid, side)) ∧
        alookup splits pid = some sp ∧
        ((side = "first" ∧ sp.first = .window sel ∧ Reps splits sp.second sib) ∨
         (side = "second" ∧ sp.second = .window sel ∧ Reps splits sp.first sib)) ∧
        pid ∈ splitIds t ∧
        splitIds sib ⊆ splitIds t ∧
        pid ∉ splitIds sib ∧
        List.Disjoint (splitIds sib) (visIds t (.split pid)) ∧
        pid ∉ splitIds (substAt t (.split pid) sib) ∧
        leaves (substAt t (.split pid) sib) = (leaves t).erase sel ∧
        numNodes (substAt t (.split pid) sib) + 1 = numNodes t ∧
        numNodes sib < numNodes t) := by
  intro t ref h
  induction h with
  | window i =>
      intro _ _ hsel
      left
      simp only [leaves, List.mem_singleton] at hsel
      exact ⟨i, rfl, fun pa => by simp [findParentSpecAux, hsel.symm]⟩
  | split i sp l r hsp hl hr ihl ihr =>
      intro hndS hndL hsel
      simp only [splitIds, List.nodup_cons, List.mem_cons, List.mem_append,
        List.nodup_append] at hndS
      obtain ⟨hi, hndSl, hndSr, hdisjS⟩ := hndS
      have hil : i ∉ splitIds l := fun hm => hi (Or.inl hm)
      have hir : i ∉ splitIds r := fun hm => hi (Or.inr hm)
      simp only [leaves, List.nodup_append] at hndL
      obtain ⟨hndLl, hndLr, hdisjL⟩ := hndL
      right
      simp only [leaves, List.mem_append] at hsel
      rcases hsel with hsell | hselr
      · -- selected window in the first child
        have hselnr : sel ∉ leaves r := hdisjL hsell
        rcases ihl hndSl hndLl hsell with ⟨w, hleq, hAux⟩ | hpack
        · -- first child is the selected leaf itself: parent is this split
          subst hleq
          simp only [leaves, List.mem_singleton] at hsell
          subst hsell
          have hfirst : sp.first = .window sel := reps_leaf_ref hl
          have hsub0 : substAt (LTree.node i sp.axis (LTree.leaf sel) r)
              (LayoutRef.split i) r = r := by
            simp [substAt]
          refine ⟨i, "first", r, sp, ?_, hsp, Or.inl ⟨rfl, hfirst, hr⟩, ?_, ?_, hir, ?_, ?_, ?_, ?_, ?_⟩
          · intro pa
            simp [findParentSpecAux, hAux]
          · simp [splitIds]
          · intro j hj
            simp [splitIds, hj]
          · simp [visIds, List.Disjoint]
          · rw [hsub0]
            exact hir
          · rw [hsub0]
            show leaves r = (sel :: leaves r).erase sel
            rw [List.erase_cons_head]
          · rw [hsub0]
            simp only [numNodes]
            omega
          · simp only [numNodes]
            omega
        · -- parent lies inside the first child
          obtain ⟨pid, side, sib, sp', hAux, hsp', hsides, hpidmem, hsibsub, hpidsib,
            hdisjvis, hpidsubst, hleaves, hnn⟩ := hpack
          have hpid_ne_i : pid ≠ i := fun he => hil (he ▸ hpidmem)
          have hpid_notin_r : pid ∉ splitIds r := fun hm => hdisjS hpidmem hm
          have hne_top : ¬ (LayoutRef.split i = LayoutRef.split pid) := by
            intro hc; cases hc; exact hpid_ne_i rfl
          have hsubr : substAt r (.split pid) sib = r :=
            substAt_of_not_mem pid r sib hpid_notin_r
          refine ⟨pid, side, sib, sp', ?_, hsp', hsides, ?_, ?_, hpidsib, ?_, ?_, ?_, ?_, ?_⟩
          · intro pa
            simp [findParentSpecAux, hAux]
          · simp [splitIds, hpidmem]
          · intro j hj
            simp [splitIds, List.mem_append, hsibsub hj]
          · intro j hj hvis
            simp only [visIds, if_neg hne_top, List.mem_cons, List.mem_append] at hvis
            rcases hvis with hv | hv | hv
            · exact hil (hv ▸ hsibsub hj)
            · exact hdisjvis hj hv
            · exact hdisjS (hsibsub hj) (visIds_subset r _ hv)
          · simp only [substAt, if_neg hne_top, splitIds, hsubr, List.mem_cons,
              List.mem_append]
            push_neg
            exact ⟨hpid_ne_i, hpidsubst, hpid_notin_r⟩
          · simp only [substAt, if_neg hne_top, leaves, hsubr, hleaves]
            rw [List.erase_append_left _ hsell]
          · simp only [substAt, if_neg hne_top, numNodes, hsubr] at hnn ⊢
            omega
          · simp only [numNodes]
            omega
      · -- selected window in the second child
        have hselnl : sel ∉ leaves l := fun hm => hdisjL hm hselr
        have hAuxl : ∀ pa, findParentSpecAux sel l pa = none :=
          findParentSpecAux_not_mem l hselnl
        rcases ihr hndSr hndLr hselr with ⟨w, hleq, hAux⟩ | hpack
        · subst hleq
          simp only [leaves, List.mem_singleton] at hselr
          subst hselr
          have hsecond : sp.second = .window sel := reps_leaf_ref hr
          have hsub0 : substAt (LTree.node i sp.axis l (LTree.leaf sel))
              (LayoutRef.split i) l = l := by
            simp [substAt]
          refine ⟨i, "second", l, sp, ?_, hsp, Or.inr ⟨rfl, hsecond, hl⟩, ?_, ?_, hil, ?_, ?_, ?_, ?_, ?_⟩
          · intro pa
            simp [findParentSpecAux, hAuxl, hAux]
          · simp [splitIds]
          · intro j hj
            simp [splitIds, hj]
          · simp [visIds, List.Disjoint]
          · rw [hsub0]
            exact hil
          · rw [hsub0]
            show leaves l = (leaves l ++ [sel]).erase sel
            rw [List.erase_append_right _ hselnl, List.erase_cons_head]
            simp
          · rw [hsub0]
            simp only [numNodes]
          · simp only [numNodes]
            omega
        · obtain ⟨pid, side, sib, sp', hAux, hsp', hsides, hpidmem, hsibsub, hpidsib,
            hdisjvis, hpidsubst, hleaves, hnn⟩ := hpack
          have hpid_ne_i : pid ≠ i := fun he => hir (he ▸ hpidmem)
          have hpid_notin_l : pid ∉ splitIds l := fun hm => hdisjS hm hpidmem
          have hne_top : ¬ (LayoutRef.split i = LayoutRef.split pid) := by
            intro hc; cases hc; exact hpid_ne_i rfl
          have hsubl : substAt l (.split pid) sib = l :=
            substAt_of_not_mem pid l sib hpid_notin_l
          refine ⟨pid, side, sib, sp', ?_, hsp', hsides, ?_, ?_, hpidsib, ?_, ?_, ?_, ?_, ?_⟩
          · intro pa
            simp [findParentSpecAux, hAuxl, hAux]
          · simp [splitIds, hpidmem]
          · intro j hj
            simp [splitIds, List.mem_append, hsibsub hj]
          · intro j hj hvis
            simp only [visIds, if_neg hne_top, List.mem_cons, List.mem_append] at hvis
            rcases hvis with hv | hv | hv
            · exact hir (hv ▸ hsibsub hj)
            · exact hdisjS (visIds_subset l _ hv) (hsibsub hj)
            · exact hdisjvis hj hv
          · simp only [substAt, if_neg hne_top, splitIds, hsubl, List.mem_cons,
              List.mem_append]
            push_neg
            exact ⟨hpid_ne_i, hpid_notin_l, hpidsubst⟩
          · simp only [substAt, if_neg hne_top, leaves, hsubl, hleaves]
            rw [List.erase_append_right _ hselnl]
          · simp only [substAt, if_neg hne_top, numNodes, hsubl] at hnn ⊢
            omega
          · simp only [numNodes]
            omega

/-- Claim C1: with more than one window, `delete_window` removes exactly the
selected window from the layout (count drops by one), deletes its cursor
memory and the parent split entry, replaces the parent split's position in
the tree with the sibling subtree, and re-selects the left-most depth-first
window of that promoted sibling; with a single window it fails with
"cannot delete the only window" (raised before any mutation, which the pure
embedding reflects by returning only the error). -/
theorem pymacs_C1_delete_window (st : EditorState) (t : LTree)
    (hreify : reify st.splits (layoutFuel st.splits) st.layout_root = some t)
    (hndS : (splitIds t).Nodup) (hndL : (leaves t).Nodup)
    (hselmem : st.selected_window_id ∈ leaves t)
    (hkeys : (akeys st.splits).Nodup) :
    window_list st = some (leaves t) ∧
    ((leaves t).length ≤ 1 → delete_window st = .error "cannot delete the only window") ∧
    (1 < (leaves t).length →
      ∃ st' pid side sib sp,
        findParentSpecAux st.selected_window_id t none = some (pid, side) ∧
        alookup st.splits pid = some sp ∧
        ((side = "first" ∧ sp.first = .window st.selected_window_id ∧
            Reps st.splits sp.second sib) ∨
         (side = "second" ∧ sp.second = .window st.selected_window_id ∧
            Reps st.splits sp.first sib)) ∧
        delete_window st = .ok (st', leftmostLeaf sib) ∧
        st'.selected_window_id = leftmostLeaf sib ∧
        leftmostLeaf sib ∈ leaves sib ∧
        window_list st' = some ((leaves t).erase st.selected_window_id) ∧
        ((leaves t).erase st.selected_window_id).length + 1 = (leaves t).length ∧
        Reps st'.splits st'.layout_root (substAt t (.split pid) sib) ∧
        alookup st'.windows st.selected_window_id = none ∧
        (∀ j, j ≠ st.selected_window_id → alookup st'.windows j = alookup st.windows j) ∧
        alookup st'.window_points st.selected_window_id = none ∧
        alookup st'.splits pid = none) := by
  have hreps : Reps st.splits st.layout_root t := reify_reps _ _ _ _ hreify
  have hnn : numNodes t ≤ st.splits.length := by
    rw [numNodes_eq_length_splitIds]
    have hsub := List.Subperm.length_le
      (List.Nodup.subperm hndS (fun j hj => reps_splitIds_mem hreps j hj))
    simpa [akeys] using hsub
  have hwl : window_list st = some (leaves t) :=
    walk_windows_eq hreps (layoutFuel st.splits) (by unfold layoutFuel; omega)
  refine ⟨hwl, ?_, ?_⟩
  · intro hle
    simp [delete_window, hwl, hle]
  · intro hgt
    rcases find_parent_package hreps hndS hndL hselmem with
      ⟨w, hteq, _⟩ | ⟨pid, side, sib, sp, hAux, hsp, hsides, hpidmem, hsibsub, hpidsib,
        hdisjvis, hpidsubst, hleaves, hnnsub, hnnsib⟩
    · subst hteq
      simp [leaves] at hgt
    · have hsibref : Reps st.splits (if side = "first" then sp.second else sp.first) sib := by
        rcases hsides with ⟨hs, _, hrep⟩ | ⟨hs, _, hrep⟩
        · subst hs
          rw [if_pos rfl]
          exact hrep
        · subst hs
          rw [if_neg (by decide)]
          exact hrep
      have hfp : find_parent (layoutFuel st.splits) st.splits st.layout_root
          (.window st.selected_window_id) none = some (some (pid, side)) := by
        rw [find_parent_eq hreps _ (by unfold layoutFuel; omega) none, hAux none]
      obtain ⟨splits', hrun, hkeys', hchar⟩ :=
        @replace_ref_char (.split pid)
          (if side = "first" then sp.second else sp.first)
          t st.splits st.layout_root (layoutFuel st.splits) hreps hndS
          (by unfold layoutFuel; omega)
      have hrep1 : Reps splits' (if side = "first" then sp.second else sp.first) sib :=
        reps_mono hsibref (fun j hj => by
          rw [hchar j, if_neg (fun hv => hdisjvis hj hv)])
      have hkeys'nd : (akeys splits').Nodup := by rw [hkeys']; exact hkeys
      have hpidkeys' : pid ∈ akeys splits' := by
        rw [hkeys']; exact alookup_mem_akeys hsp
      have hlenrm : (aremove splits' pid).length + 1 = splits'.length :=
        length_aremove_nodup hkeys'nd hpidkeys'
      have hlen' : splits'.length = st.splits.length := by
        have h1 : (akeys splits').length = (akeys st.splits).length := by rw [hkeys']
        simpa [akeys] using h1
      have hrep2 : Reps (aremove splits' pid) (if side = "first" then sp.second else sp.first) sib :=
        reps_mono hrep1 (fun j hj => by
          rw [alookup_aremove, if_neg (fun he => hpidsib (by rw [← he]; exact hj))])
      have hfw : first_window (aremove splits' pid) (layoutFuel (aremove splits' pid))
          (if side = "first" then sp.second else sp.first) = some (leftmostLeaf sib) :=
        first_window_eq hrep2 _ (by unfold layoutFuel; omega)
      have hsubstReps :=
        reps_substAt hchar hrep1 hreps (fun j hj => hj)
      have hsubstReps2 : Reps (aremove splits' pid)
          (childSubst (.split pid) (if side = "first" then sp.second else sp.first)
            st.layout_root)
          (substAt t (.split pid) sib) :=
        reps_mono hsubstReps (fun j hj => by
          rw [alookup_aremove, if_neg (fun he => hpidsubst (by subst he; exact hj))])
      have hwl' : walk_windows (aremove splits' pid) (layoutFuel (aremove splits' pid))
          (childSubst (.split pid) (if side = "first" then sp.second else sp.first)
            st.layout_root) = some (leaves (substAt t (.split pid) sib)) :=
        walk_windows_eq hsubstReps2 _ (by unfold layoutFuel; omega)
      have hgt' : ¬ ((leaves t).length ≤ 1) := by omega
      refine ⟨{ st with
          layout_root :=
            childSubst (.split pid) (if side = "first" then sp.second else sp.first)
              st.layout_root,
          splits := aremove splits' pid,
          windows := aremove st.windows st.selected_window_id,
          window_points := aremove st.window_points st.selected_window_id,
          selected_window_id := leftmostLeaf sib },
        pid, side, sib, sp, hAux none, hsp, hsides, ?_, rfl, leftmostLeaf_mem sib,
        ?_, ?_, hsubstReps2, ?_, ?_, ?_, ?_⟩
      · simp only [delete_window, hwl, if_neg hgt', hfp, hsp, hrun, hfw]
      · show walk_windows (aremove splits' pid) (layoutFuel (aremove splits' pid)) _ = _
        rw [hwl', hleaves]
      · rw [List.length_erase_of_mem hselmem]
        have := List.length_pos_of_mem hselmem
        omega
      · show alookup (aremove st.windows st.selected_window_id) _ = none
        rw [alookup_aremove, if_pos rfl]
      · intro j hj
        show alookup (aremove st.windows st.selected_window_id) j = _
        rw [alookup_aremove, if_neg hj]
      · show alookup (aremove st.window_points st.selected_window_id) _ = none
        rw [alookup_aremove, if_pos rfl]
      · show alookup (aremove splits' pid) pid = none
        rw [alookup_aremove, if_pos rfl]

/-- Witness for C1 on a concrete two-window workspace (the state produced by
splitting the initial scratch window below): deleting window 1 promotes the
sibling, selects window 2, and leaves a one-window layout. -/
theorem pymacs_C1_delete_window_witness :
    ∃ st' w',
      delete_window
        { buffers := [("*scratch*", "")]
          global_keymap := []
          buffer_keymaps := []
          mode_keymaps := []
          buffer_modes := []
          windows := [(1, ⟨1, "*scratch*"⟩), (2, ⟨2, "*scratch*"⟩)]
          splits := [(1, ⟨1, "below", .window 1, .window 2⟩)]
          layout_root := .split 1
          selected_window_id := 1
          next_window_id := 3
          next_split_id := 2
          window_points := [(1, [("*scratch*", 0)]), (2, [("*scratch*", 0)])]
          buffer_history := ["*scratch*"] } = .ok (st', w') ∧
      st'.selected_window_id = w' ∧ window_list st' = some [2] ∧
      alookup st'.windows 1 = none := by
  obtain ⟨-, -, h3⟩ := pymacs_C1_delete_window
    { buffers := [("*scratch*", "")]
      global_keymap := []
      buffer_keymaps := []
      mode_keymaps := []
      buffer_modes := []
      windows := [(1, ⟨1, "*scratch*"⟩), (2, ⟨2, "*scratch*"⟩)]
      splits := [(1, ⟨1, "below", .window 1, .window 2⟩)]
      layout_root := .split 1
      selected_window_id := 1
      next_window_id := 3
      next_split_id := 2
      window_points := [(1, [("*scratch*", 0)]), (2, [("*scratch*", 0)])]
      buffer_history := ["*scratch*"] }
    (.node 1 "below" (.leaf 1) (.leaf 2))
    (by decide) (by decide) (by decide) (by decide) (by decide)
  obtain ⟨st', pid, side, sib, sp, hA, hsp, hsides, hdel, hselid, hmem, hwl, hlen,
    hreps, hwnone, hwfr, hpnone, hsnone⟩ := h3 (by decide)
  refine ⟨st', leftmostLeaf sib, hdel, hselid, ?_, hwnone⟩
  rw [hwl]
  decide

/-! ### Lemmas about `kill_buffer` (claims C3 and C10) -/

theorem ensure_buffer_lookup_ne (st : EditorState) (b key : String) (h : key ≠ b) :
    alookup (ensure_buffer st b).buffers key = alookup st.buffers key := by
  unfold ensure_buffer
  cases hb : alookup st.buffers b
  · simp only [alookup_aset]
    rw [if_neg (fun he => h he.symm)]
  · rfl

theorem ensure_buffer_of_present (st : EditorState) (b : String) (v : String)
    (h : alookup st.buffers b = some v) : ensure_buffer st b = st := by
  unfold ensure_buffer
  rw [h]

theorem ensure_buffer_points (st : EditorState) (b : String) :
    (ensure_buffer st b).window_points = st.window_points := by
  rw [ensure_buffer_eq]

theorem ensure_buffer_windows (st : EditorState) (b : String) :
    (ensure_buffer st b).windows = st.windows := by
  rw [ensure_buffer_eq]

theorem ensure_buffer_history (st : EditorState) (b : String) :
    (ensure_buffer st b).buffer_history = st.buffer_history := by
  rw [ensure_buffer_eq]

theorem ensure_buffer_bkeymaps (st : EditorState) (b : String) :
    (ensure_buffer st b).buffer_keymaps = st.buffer_keymaps := by
  rw [ensure_buffer_eq]

theorem ensure_buffer_bmodes (st : EditorState) (b : String) :
    (ensure_buffer st b).buffer_modes = st.buffer_modes := by
  rw [ensure_buffer_eq]

theorem ensure_window_point_windows (st : EditorState) (wid : Nat) (b : String) :
    (ensure_window_point st wid b).windows = st.windows := by
  rw [ensure_window_point_eq]

theorem ensure_window_point_history (st : EditorState) (wid : Nat) (b : String) :
    (ensure_window_point st wid b).buffer_history = st.buffer_history := by
  rw [ensure_window_point_eq]

theorem ensure_window_point_bkeymaps (st : EditorState) (wid : Nat) (b : String) :
    (ensure_window_point st wid b).buffer_keymaps = st.buffer_keymaps := by
  rw [ensure_window_point_eq]

theorem ensure_window_point_bmodes (st : EditorState) (wid : Nat) (b : String) :
    (ensure_window_point st wid b).buffer_modes = st.buffer_modes := by
  rw [ensure_window_point_eq]

theorem ensure_window_point_selected (st : EditorState) (wid : Nat) (b : String) :
    (ensure_window_point st wid b).selected_window_id = st.selected_window_id := by
  rw [ensure_window_point_eq]

theorem ensure_window_point_buffers (st : EditorState) (wid : Nat) (b : String) :
    (ensure_window_point st wid b).buffers = (ensure_buffer st b).buffers := rfl

/-- Points frame of `_ensure_window_point` for other windows. -/
theorem ensure_window_point_frame (st : EditorState) (wid : Nat) (b : String) :
    ∀ j, j ≠ wid →
      alookup (ensure_window_point st wid b).window_points j =
        alookup st.window_points j := by
  obtain ⟨_, _, _, _, hfr, _⟩ := ensure_window_point_points st wid b
  exact hfr

/-- If the window had no point entry for the buffer, `_ensure_window_point`
creates it at 0. -/
theorem ensure_window_point_zero (st : EditorState) (wid : Nat) (b : String)
    (h : ∀ pts, alookup st.window_points wid = some pts → alookup pts b = none) :
    ∃ pts, alookup (ensure_window_point st wid b).window_points wid = some pts ∧
      alookup pts b = some 0 := by
  unfold ensure_window_point
  cases hp : alookup (ensure_buffer st b).window_points wid with
  | none =>
      exact ⟨aset [] b 0, by simp [hp, alookup_aset], by simp [alookup_aset]⟩
  | some pts =>
      have hb : alookup pts b = none := by
        apply h
        rw [← ensure_buffer_points st b]
        exact hp
      exact ⟨aset pts b 0, by simp [hp, hb, alookup_aset], by simp [alookup_aset]⟩

theorem kill_reassign_fields (bname repl : String) :
    ∀ (el : List (Nat × Window)) (st : EditorState),
      (kill_reassign bname repl st el).buffer_keymaps = st.buffer_keymaps ∧
      (kill_reassign bname repl st el).buffer_modes = st.buffer_modes ∧
      (kill_reassign bname repl st el).buffer_history = st.buffer_history := by
  intro el
  induction el with
  | nil => intro st; exact ⟨rfl, rfl, rfl⟩
  | cons hd rest ih =>
      intro st
      obtain ⟨wid, w⟩ := hd
      by_cases hb : w.buffer = bname
      · simp only [kill_reassign, if_pos hb]
        obtain ⟨h1, h2, h3⟩ := ih
          (ensure_window_point { st with windows := aset st.windows wid { w with buffer := repl } } wid repl)
        rw [h1, h2, h3, ensure_window_point_bkeymaps, ensure_window_point_bmodes,
          ensure_window_point_history]
        exact ⟨rfl, rfl, rfl⟩
      · simp only [kill_reassign, if_neg hb]
        exact ih st

theorem kill_reassign_buffers_ne (bname repl key : String) (hkey : key ≠ repl) :
    ∀ (el : List (Nat × Window)) (st : EditorState),
      alookup (kill_reassign bname repl st el).buffers key = alookup st.buffers key := by
  intro el
  induction el with
  | nil => intro st; rfl
  | cons hd rest ih =>
      intro st
      obtain ⟨wid, w⟩ := hd
      by_cases hb : w.buffer = bname
      · simp only [kill_reassign, if_pos hb]
        rw [ih, ensure_window_point_buffers, ensure_buffer_lookup_ne _ _ _ hkey]
      · simp only [kill_reassign, if_neg hb]
        exact ih st

theorem kill_reassign_buffers_present (bname repl : String) (v : String) :
    ∀ (el : List (Nat × Window)) (st : EditorState),
      alookup st.buffers repl = some v →
      (kill_reassign bname repl st el).buffers = st.buffers := by
  intro el
  induction el with
  | nil => intro st _; rfl
  | cons hd rest ih =>
      intro st hv
      obtain ⟨wid, w⟩ := hd
      by_cases hb : w.buffer = bname
      · simp only [kill_reassign, if_pos hb]
        have hprev : (ensure_window_point
            { st with windows := aset st.windows wid { w with buffer := repl } } wid repl).buffers =
            st.buffers := by
          have hX : alookup ({ st with
              windows := aset st.windows wid { w with buffer := repl } } : EditorState).buffers
              repl = some v := hv
          rw [ensure_window_point_buffers, ensure_buffer_of_present _ repl v hX]
        rw [ih _ (by rw [hprev]; exact hv), hprev]
      · simp only [kill_reassign, if_neg hb]
        exact ih st hv

theorem kill_reassign_windows (bname repl : String) :
    ∀ (el : List (Nat × Window)) (st : EditorState),
      (akeys el).Nodup →
      (∀ wid w, alookup el wid = some w → alookup st.windows wid = some w) →
      ∀ wid, alookup (kill_reassign bname repl st el).windows wid =
        match alookup el wid with
        | some w => some (if w.buffer = bname then { w with buffer := repl } else w)
        | none => alookup st.windows wid := by
  intro el
  induction el with
  | nil => intro st _ _ wid; rfl
  | cons hd rest ih =>
      intro st hnd hsub wid
      obtain ⟨k, w⟩ := hd
      simp only [akeys, List.map_cons, List.nodup_cons] at hnd
      have hknotin : k ∉ akeys rest := hnd.1
      have hrestnone : alookup rest k = none := (alookup_eq_none_iff rest k).mpr hknotin
      by_cases hb : w.buffer = bname
      · simp only [kill_reassign, if_pos hb]
        have hwnew : (ensure_window_point
            { st with windows := aset st.windows k { w with buffer := repl } } k repl).windows =
            aset st.windows k { w with buffer := repl } := by
          rw [ensure_window_point_windows]
        have hsub' : ∀ wid' w', alookup rest wid' = some w' →
            alookup (ensure_window_point
              { st with windows := aset st.windows k { w with buffer := repl } } k repl).windows wid' =
              some w' := by
          intro wid' w' hl
          have hne : k ≠ wid' := fun he => hknotin (he ▸ alookup_mem_akeys hl)
          rw [hwnew, alookup_aset, if_neg hne]
          apply hsub
          rw [alookup_cons, if_neg hne]
          exact hl
        rw [ih _ hnd.2 hsub' wid]
        by_cases hkw : k = wid
        · subst hkw
          simp [hrestnone, alookup_cons, hwnew, alookup_aset, hb]
        · cases hr : alookup rest wid with
          | some w' => simp [hr, alookup_cons, hkw]
          | none => simp [hr, alookup_cons, hkw, hwnew, alookup_aset]
      · simp only [kill_reassign, if_neg hb]
        have hsub' : ∀ wid' w', alookup rest wid' = some w' →
            alookup st.windows wid' = some w' := by
          intro wid' w' hl
          have hne : k ≠ wid' := fun he => hknotin (he ▸ alookup_mem_akeys hl)
          apply hsub
          rw [alookup_cons, if_neg hne]
          exact hl
        rw [ih _ hnd.2 hsub' wid]
        by_cases hkw : k = wid
        · subst hkw
          have hself := hsub k w (by rw [alookup_cons, if_pos rfl])
          simp [hrestnone, alookup_cons, hb, hself]
        · cases hr : alookup rest wid with
          | some w' => simp [hr, alookup_cons, hkw]
          | none => simp [hr, alookup_cons, hkw]

theorem kill_reassign_points_frame (bname repl : String) :
    ∀ (el : List (Nat × Window)) (st : EditorState) (j : Nat), j ∉ akeys el →
      alookup (kill_reassign bname repl st el).window_points j =
        alookup st.window_points j := by
  intro el
  induction el with
  | nil => intro st j _; rfl
  | cons hd rest ih =>
      intro st j hj
      obtain ⟨k, w⟩ := hd
      simp only [akeys, List.map_cons, List.mem_cons] at hj
      push_neg at hj
      by_cases hb : w.buffer = bname
      · simp only [kill_reassign, if_pos hb]
        rw [ih _ _ (by simpa [akeys] using hj.2),
          ensure_window_point_frame _ _ _ j (fun he => hj.1 he)]
      · simp only [kill_reassign, if_neg hb]
        exact ih _ _ (by simpa [akeys] using hj.2)

theorem kill_reassign_points_zero (bname repl : String) :
    ∀ (el : List (Nat × Window)) (st : EditorState),
      (akeys el).Nodup →
      (∀ wid w, alookup el wid = some w → w.buffer = bname) →
      (∀ wid, wid ∈ akeys el → ∀ pts, alookup st.window_points wid = some pts →
        alookup pts repl = none) →
      ∀ wid w, alookup el wid = some w →
        ∃ pts, alookup (kill_reassign bname repl st el).window_points wid = some pts ∧
          alookup pts repl = some 0 := by
  intro el
  induction el with
  | nil => intro st _ _ _ wid w h; cases h
  | cons hd rest ih =>
      intro st hnd hshown hfresh wid w hl
      obtain ⟨k, w0⟩ := hd
      simp only [akeys, List.map_cons, List.nodup_cons] at hnd
      have hb : w0.buffer = bname := hshown k w0 (by rw [alookup_cons, if_pos rfl])
      simp only [kill_reassign, if_pos hb]
      by_cases hkw : k = wid
      · subst hkw
        obtain ⟨pts, hpts, hzero⟩ := ensure_window_point_zero
          { st with windows := aset st.windows k { w0 with buffer := repl } } k repl
          (fun pts hp => hfresh k (by simp [akeys]) pts hp)
        refine ⟨pts, ?_, hzero⟩
        rw [kill_reassign_points_frame bname repl rest _ k (by simpa [akeys] using hnd.1)]
        exact hpts
      · have hlrest : alookup rest wid = some w := by
          rw [alookup_cons, if_neg hkw] at hl
          exact hl
        apply ih _ hnd.2
        · intro wid' w' hl'
          apply hshown wid' w'
          have hne : k ≠ wid' := fun he => hnd.1 (he ▸ alookup_mem_akeys hl')
          rw [alookup_cons, if_neg hne]
          exact hl'
        · intro wid' hm pts hp
          have hne : wid' ≠ k := fun he => hnd.1 (he ▸ hm)
          rw [ensure_window_point_frame _ _ _ wid' hne] at hp
          have hmem2 : wid' ∈ akeys ((k, w0) :: rest) := by
            simp only [akeys, List.map_cons, List.mem_cons]
            exact Or.inr hm
          exact hfresh wid' hmem2 pts hp
        · exact hlrest

theorem mark_buffer_recent_history (st : EditorState) (name : String) :
    (mark_buffer_recent st name).buffer_history =
      name :: st.buffer_history.filter (fun i => i ≠ name) := by
  simp only [mark_buffer_recent]
  rw [ensure_buffer_history]

theorem mark_buffer_recent_buffers_ne (st : EditorState) (name key : String)
    (h : key ≠ name) :
    alookup (mark_buffer_recent st name).buffers key = alookup st.buffers key := by
  simp only [mark_buffer_recent]
  exact ensure_buffer_lookup_ne st name key h

theorem mark_buffer_recent_windows (st : EditorState) (name : String) :
    (mark_buffer_recent st name).windows = st.windows := by
  simp only [mark_buffer_recent]
  rw [ensure_buffer_windows]

theorem mark_buffer_recent_points (st : EditorState) (name : String) :
    (mark_buffer_recent st name).window_points = st.window_points := by
  simp only [mark_buffer_recent]
  rw [ensure_buffer_points]

theorem mark_buffer_recent_bkeymaps (st : EditorState) (name : String) :
    (mark_buffer_recent st name).buffer_keymaps = st.buffer_keymaps := by
  simp only [mark_buffer_recent]
  rw [ensure_buffer_bkeymaps]

theorem mark_buffer_recent_bmodes (st : EditorState) (name : String) :
    (mark_buffer_recent st name).buffer_modes = st.buffer_modes := by
  simp only [mark_buffer_recent]
  rw [ensure_buffer_bmodes]

theorem mark_buffer_recent_buffers_present (st : EditorState) (name v : String)
    (h : alookup st.buffers name = some v) :
    (mark_buffer_recent st name).buffers = st.buffers := by
  simp only [mark_buffer_recent]
  rw [ensure_buffer_of_present st name v h]

theorem recent_buffer_not_excluded {st : EditorState} {ex : List String} {r : String}
    (h : recent_buffer st ex = some r) : r ∉ ex := by
  unfold recent_buffer at h
  cases hf : st.buffer_history.find?
      (fun n => decide (n ∉ ex) && (alookup st.buffers n).isSome) with
  | some n =>
      rw [hf] at h
      cases h
      have := List.find?_some hf
      simp only [Bool.and_eq_true, decide_eq_true_eq] at this
      exact this.1
  | none =>
      rw [hf] at h
      simp only at h
      have := List.find?_some h
      simpa using this

theorem recent_buffer_empty (st : EditorState) (h : st.buffers = []) (ex : List String) :
    recent_buffer st ex = none := by
  unfold recent_buffer
  have h1 : st.buffer_history.find?
      (fun n => decide (n ∉ ex) && (alookup st.buffers n).isSome) = none :=
    List.find?_eq_none.mpr (fun a _ => by simp [h])
  rw [h1]
  simp [akeys, h]

theorem recent_buffer_isSome_of_exists (st : EditorState) (ex : List String)
    (h : ∃ c, c ∈ akeys st.buffers ∧ c ∉ ex) : (recent_buffer st ex).isSome := by
  unfold recent_buffer
  cases hf : st.buffer_history.find?
      (fun n => decide (n ∉ ex) && (alookup st.buffers n).isSome) with
  | some n => rfl
  | none =>
      simp only
      obtain ⟨c, hc, hcex⟩ := h
      have : ((akeys st.buffers).find? (fun n => decide (n ∉ ex))).isSome := by
        rw [List.find?_isSome]
        exact ⟨c, hc, by simpa using hcex⟩
      cases hg : (akeys st.buffers).find? (fun n => decide (n ∉ ex)) with
      | some r => rfl
      | none => rw [hg] at this; cases this

theorem mem_akeys_aremove {α β : Type} [DecidableEq α] {l : List (α × β)} {c k : α}
    (hc : c ∈ akeys l) (hne : c ≠ k) : c ∈ akeys (aremove l k) := by
  induction l with
  | nil => simp [akeys] at hc
  | cons hd tl ih =>
      obtain ⟨k', v'⟩ := hd
      simp only [akeys, List.map_cons, List.mem_cons] at hc
      by_cases h : k' = k
      · subst h
        rcases hc with hc | hc
        · exact absurd hc hne
        · simp only [aremove, if_pos rfl]
          exact ih hc
      · simp only [aremove, if_neg h, akeys, List.map_cons, List.mem_cons]
        rcases hc with hc | hc
        · exact Or.inl hc
        · exact Or.inr (ih hc)

theorem alookup_map_aremove (l : List (Nat × List (String × Nat))) (k : Nat)
    (name : String) :
    alookup (l.map (fun wp => (wp.1, aremove wp.2 name))) k =
      (alookup l k).map (fun pts => aremove pts name) := by
  induction l with
  | nil => rfl
  | cons hd tl ih =>
      obtain ⟨k', v'⟩ := hd
      by_cases h : k' = k
      · simp [alookup_cons, h]
      · simp [alookup_cons, h, ih]

/-- Counterexample to claim C3 as stated: killing `*scratch*` when it is the
only buffer succeeds and recreates `*scratch*`, so the killed buffer is still
in the buffer store, still shown in window 1, and still in the MRU history. -/
theorem pymacs_C3_kill_buffer_counterexample :
    kill_buffer initState "*scratch*" = .ok (initState, "*scratch*") ∧
    alookup initState.buffers "*scratch*" = some "" ∧
    alookup initState.windows 1 = some ⟨1, "*scratch*"⟩ ∧
    "*scratch*" ∈ initState.buffer_history := by decide

/-- The present-buffer half of (amended) C3: the conclusions hold whenever
the replacement cannot be the killed buffer itself, i.e. unless `B` is
`*scratch*` and no other buffer exists (that case is C10's recreation
behavior). -/
theorem kill_buffer_present (st : EditorState) (B : String) (tx : String)
    (hB : alookup st.buffers B = some tx)
    (hwkeys : (akeys st.windows).Nodup)
    (hother : B ≠ "*scratch*" ∨ ∃ c, c ∈ akeys st.buffers ∧ c ≠ B) :
    ∃ st' repl,
      kill_buffer st B = .ok (st', repl) ∧
      repl ≠ B ∧
      (∀ r, recent_buffer (kill_removals st B) [B] = some r → repl = r) ∧
      (recent_buffer (kill_removals st B) [B] = none →
        repl = "*scratch*" ∧ alookup st'.buffers "*scratch*" = some "") ∧
      alookup st'.buffers B = none ∧
      alookup st'.buffer_keymaps B = none ∧
      alookup st'.buffer_modes B = none ∧
      B ∉ st'.buffer_history ∧
      st'.buffer_history.head? = some repl ∧
      (∀ wid w, alookup st.windows wid = some w →
        alookup st'.windows wid =
          some (if w.buffer = B then { w with buffer := repl } else w)) ∧
      (∀ wid w, alookup st'.windows wid = some w → w.buffer ≠ B) := by
  have hmidb : (kill_removals st B).buffers = aremove st.buffers B := rfl
  have hmidk : (kill_removals st B).buffer_keymaps = aremove st.buffer_keymaps B := rfl
  have hmidm : (kill_removals st B).buffer_modes = aremove st.buffer_modes B := rfl
  have hmidh : (kill_removals st B).buffer_history =
      st.buffer_history.filter (fun n => n ≠ B) := rfl
  have hmidw : (kill_removals st B).windows = st.windows := rfl
  have hBmid : alookup (kill_removals st B).buffers B = none := by
    rw [hmidb, alookup_aremove, if_pos rfl]
  cases hrb : recent_buffer (kill_removals st B) [B] with
  | some r =>
      have hrne : r ≠ B := by
        have := recent_buffer_not_excluded hrb
        simpa using this
      have hBner : B ≠ r := fun he => hrne he.symm
      refine ⟨mark_buffer_recent
          (kill_reassign B r (kill_removals st B) (kill_removals st B).windows) r, r,
        ?_, hrne, ?_, ?_, ?_, ?_, ?_, ?_, ?_, ?_, ?_⟩
      · simp only [kill_buffer, hB, hrb]
      · intro r' hr'
        exact Option.some.inj hr'
      · intro hc
        exact Option.noConfusion hc
      · rw [mark_buffer_recent_buffers_ne _ _ _ hBner,
          kill_reassign_buffers_ne B r B hBner, hBmid]
      · rw [mark_buffer_recent_bkeymaps, (kill_reassign_fields B r _ _).1, hmidk,
          alookup_aremove, if_pos rfl]
      · rw [mark_buffer_recent_bmodes, (kill_reassign_fields B r _ _).2.1, hmidm,
          alookup_aremove, if_pos rfl]
      · rw [mark_buffer_recent_history, (kill_reassign_fields B r _ _).2.2, hmidh]
        intro hmem
        simp only [List.mem_cons, List.mem_filter, decide_eq_true_eq] at hmem
        rcases hmem with hmem | hmem
        · exact hBner hmem
        · exact hmem.1.2 rfl
      · rw [mark_buffer_recent_history]
        rfl
      · intro wid w hw
        rw [mark_buffer_recent_windows,
          kill_reassign_windows B r _ _ (by rw [hmidw]; exact hwkeys)
            (fun wid' w' hl => by rw [hmidw] at hl ⊢; exact hl) wid]
        rw [hmidw, hw]
      · intro wid w hw
        rw [mark_buffer_recent_windows,
          kill_reassign_windows B r _ _ (by rw [hmidw]; exact hwkeys)
            (fun wid' w' hl => by rw [hmidw] at hl ⊢; exact hl) wid] at hw
        cases hl : alookup (kill_removals st B).windows wid with
        | some w0 =>
            rw [hl] at hw
            simp only [Option.some.injEq] at hw
            by_cases hb0 : w0.buffer = B
            · rw [if_pos hb0] at hw
              rw [← hw]
              exact hrne
            · rw [if_neg hb0] at hw
              rw [← hw]
              exact hb0
        | none =>
            rw [hl] at hw
            simp at hw
  | none =>
      have hBs : B = "*scratch*" ∨ B ≠ "*scratch*" := by
        by_cases h : B = "*scratch*"
        · exact Or.inl h
        · exact Or.inr h
      have hnoother : ¬ ∃ c, c ∈ akeys st.buffers ∧ c ≠ B := by
        rintro ⟨c, hc, hcne⟩
        have hcmem : c ∈ akeys (kill_removals st B).buffers := by
          rw [hmidb]
          exact mem_akeys_aremove hc hcne
        have := recent_buffer_isSome_of_exists (kill_removals st B) [B]
          ⟨c, hcmem, by simpa using hcne⟩
        rw [hrb] at this
        cases this
      have hBnotscratch : B ≠ "*scratch*" := by
        rcases hother with h | h
        · exact h
        · exact absurd h hnoother
      have hmbempty : (kill_removals st B).buffers = [] := by
        have hkeysB : ∀ c ∈ akeys (kill_removals st B).buffers, False := by
          intro c hc
          by_cases hcB : c = B
          · subst hcB
            rw [alookup_eq_none_iff] at hBmid
            exact hBmid hc
          · rw [hmidb] at hc
            apply hnoother
            refine ⟨c, ?_, hcB⟩
            have : c ∈ (akeys (aremove st.buffers B)) := hc
            -- keys of the removal are keys of the original
            clear hrb hc
            revert this
            generalize st.buffers = l
            intro hthis
            induction l with
            | nil => simp [aremove, akeys] at hthis
            | cons hd tl ih =>
                obtain ⟨k', v'⟩ := hd
                by_cases hk : k' = B
                · subst hk
                  simp only [aremove, if_pos rfl] at hthis
                  simp only [akeys, List.map_cons, List.mem_cons]
                  exact Or.inr (ih hthis)
                · simp only [aremove, if_neg hk, akeys, List.map_cons,
                    List.mem_cons] at hthis ⊢
                  rcases hthis with h | h
                  · exact Or.inl h
                  · exact Or.inr (ih h)
        cases hmb : (kill_removals st B).buffers with
        | nil => rfl
        | cons hd tl =>
            exfalso
            apply hkeysB hd.1
            rw [hmb]
            simp [akeys]
      have hsb : (ensure_buffer (kill_removals st B) "*scratch*").buffers =
          [("*scratch*", "")] := by
        unfold ensure_buffer
        rw [hmbempty]
        rfl
      have hsblook : alookup (ensure_buffer (kill_removals st B) "*scratch*").buffers
          "*scratch*" = some "" := by
        rw [hsb]
        rfl
      have hsbw : (ensure_buffer (kill_removals st B) "*scratch*").windows = st.windows := by
        rw [ensure_buffer_windows, hmidw]
      have hkrb : (kill_reassign B "*scratch*"
          (ensure_buffer (kill_removals st B) "*scratch*")
          (ensure_buffer (kill_removals st B) "*scratch*").windows).buffers =
          [("*scratch*", "")] := by
        rw [kill_reassign_buffers_present B "*scratch*" "" _ _ hsblook, hsb]
      refine ⟨mark_buffer_recent
          (kill_reassign B "*scratch*" (ensure_buffer (kill_removals st B) "*scratch*")
            (ensure_buffer (kill_removals st B) "*scratch*").windows) "*scratch*",
        "*scratch*", ?_, fun he => hBnotscratch he.symm, ?_, ?_, ?_, ?_, ?_, ?_, ?_, ?_, ?_⟩
      · simp only [kill_buffer, hB, hrb]
      · intro r' hr'
        exact Option.noConfusion hr'
      · intro _
        refine ⟨rfl, ?_⟩
        rw [mark_buffer_recent_buffers_present _ _ "" (by rw [hkrb]; decide), hkrb]
        decide
      · rw [mark_buffer_recent_buffers_present _ _ "" (by rw [hkrb]; decide), hkrb,
          alookup_cons, if_neg (fun he => hBnotscratch he.symm)]
        rfl
      · rw [mark_buffer_recent_bkeymaps, (kill_reassign_fields _ _ _ _).1,
          ensure_buffer_bkeymaps, hmidk, alookup_aremove, if_pos rfl]
      · rw [mark_buffer_recent_bmodes, (kill_reassign_fields _ _ _ _).2.1,
          ensure_buffer_bmodes, hmidm, alookup_aremove, if_pos rfl]
      · rw [mark_buffer_recent_history, (kill_reassign_fields _ _ _ _).2.2,
          ensure_buffer_history, hmidh]
        intro hmem
        simp only [List.mem_cons, List.mem_filter, decide_eq_true_eq] at hmem
        rcases hmem with hmem | hmem
        · exact hBnotscratch hmem
        · exact hmem.1.2 rfl
      · rw [mark_buffer_recent_history]
        rfl
      · intro wid w hw
        rw [mark_buffer_recent_windows,
          kill_reassign_windows B "*scratch*" _ _ (by rw [hsbw]; exact hwkeys)
            (fun wid' w' hl => by rw [hsbw] at hl ⊢; exact hl) wid]
        rw [hsbw, hw]
      · intro wid w hw
        rw [mark_buffer_recent_windows,
          kill_reassign_windows B "*scratch*" _ _ (by rw [hsbw]; exact hwkeys)
            (fun wid' w' hl => by rw [hsbw] at hl ⊢; exact hl) wid] at hw
        cases hl : alookup (ensure_buffer (kill_removals st B) "*scratch*").windows wid with
        | some w0 =>
            rw [hl] at hw
            simp only [Option.some.injEq] at hw
            by_cases hb0 : w0.buffer = B
            · rw [if_pos hb0] at hw
              rw [← hw]
              exact fun he => hBnotscratch he.symm
            · rw [if_neg hb0] at hw
              rw [← hw]
              exact hb0
        | none =>
            rw [hl] at hw
            simp at hw

/-- Claim C3, amended.  If `B` is not in the buffer store, `kill_buffer B`
fails with the "unknown buffer" error (the embedding is a pure function, so
the input state is untouched on that path: no updated state is produced).
Otherwise — unless `B` is `*scratch*` and no other buffer exists, the case
C10's recreation behavior covers — after `kill_buffer B`: `B` is gone from
the store, the buffer-scoped keymaps, the mode lists and the history; no
window shows `B`; every window that showed `B` shows the replacement (the
most-recently-used other live buffer, else `*scratch*`, created if
necessary); and the replacement is at the head of the MRU history. -/
theorem pymacs_C3_kill_buffer (st : EditorState) (B : String) :
    (alookup st.buffers B = none →
      kill_buffer st B = .error ("unknown buffer: " ++ B)) ∧
    (∀ tx, alookup st.buffers B = some tx →
      (akeys st.windows).Nodup →
      (B ≠ "*scratch*" ∨ ∃ c, c ∈ akeys st.buffers ∧ c ≠ B) →
      ∃ st' repl,
        kill_buffer st B = .ok (st', repl) ∧
        repl ≠ B ∧
        (∀ r, recent_buffer (kill_removals st B) [B] = some r → repl = r) ∧
        (recent_buffer (kill_removals st B) [B] = none →
          repl = "*scratch*" ∧ alookup st'.buffers "*scratch*" = some "") ∧
        alookup st'.buffers B = none ∧
        alookup st'.buffer_keymaps B = none ∧
        alookup st'.buffer_modes B = none ∧
        B ∉ st'.buffer_history ∧
        st'.buffer_history.head? = some repl ∧
        (∀ wid w, alookup st.windows wid = some w →
          alookup st'.windows wid =
            some (if w.buffer = B then { w with buffer := repl } else w)) ∧
        (∀ wid w, alookup st'.windows wid = some w → w.buffer ≠ B)) := by
  constructor
  · intro hB
    simp only [kill_buffer, hB]
  · intro tx hB hwkeys hother
    exact kill_buffer_present st B tx hB hwkeys hother

/-- Witness for (amended) C3: killing the absent buffer `nope` fails with the
"unknown buffer" error, and killing buffer `b` in a two-buffer workspace
replaces it with the scratch buffer everywhere and removes it from the
store and the history. -/
theorem pymacs_C3_kill_buffer_witness :
    kill_buffer
        { initState with
            buffers := [("*scratch*", ""), ("b", "x")]
            buffer_history := ["b", "*scratch*"]
            windows := [(1, ⟨1, "b"⟩)] } "nope" =
      .error "unknown buffer: nope" ∧
    ∃ st' repl,
      kill_buffer
        { initState with
            buffers := [("*scratch*", ""), ("b", "x")]
            buffer_history := ["b", "*scratch*"]
            windows := [(1, ⟨1, "b"⟩)] } "b" = .ok (st', repl) ∧
      repl ≠ "b" ∧ alookup st'.buffers "b" = none ∧
      (∀ wid w, alookup st'.windows wid = some w → w.buffer ≠ "b") := by
  constructor
  · exact (pymacs_C3_kill_buffer
      { initState with
          buffers := [("*scratch*", ""), ("b", "x")]
          buffer_history := ["b", "*scratch*"]
          windows := [(1, ⟨1, "b"⟩)] } "nope").1 (by decide)
  · obtain ⟨st', repl, h1, h2, _, _, h5, _, _, _, _, _, h11⟩ :=
      (pymacs_C3_kill_buffer
        { initState with
            buffers := [("*scratch*", ""), ("b", "x")]
            buffer_history := ["b", "*scratch*"]
            windows := [(1, ⟨1, "b"⟩)] } "b").2 "x"
        (by decide) (by decide) (Or.inl (by decide))
    exact ⟨st', repl, h1, h2, h5, h11⟩

/-- Claim C10: when `*scratch*` is the only buffer in the store (and every
window shows it, as the invariants guarantee), `kill_buffer "*scratch*"`
succeeds: it recreates `*scratch*` empty, returns it as the replacement,
re-inserts it at the head of the MRU history, and afterwards every window
shows `*scratch*` with a point entry of 0. -/
theorem pymacs_C10_kill_only_scratch (st : EditorState) (tx : String)
    (hbuf : st.buffers = [("*scratch*", tx)])
    (hwkeys : (akeys st.windows).Nodup)
    (hwin : ∀ wid w, alookup st.windows wid = some w → w.buffer = "*scratch*") :
    ∃ st',
      kill_buffer st "*scratch*" = .ok (st', "*scratch*") ∧
      alookup st'.buffers "*scratch*" = some "" ∧
      st'.buffer_history.head? = some "*scratch*" ∧
      (∀ wid w, alookup st.windows wid = some w → alookup st'.windows wid = some w) ∧
      (∀ wid w, alookup st'.windows wid = some w → w.buffer = "*scratch*") ∧
      (∀ wid w, alookup st.windows wid = some w →
        ∃ pts, alookup st'.window_points wid = some pts ∧
          alookup pts "*scratch*" = some 0) := by
  have hB : alookup st.buffers "*scratch*" = some tx := by
    rw [hbuf, alookup_cons, if_pos rfl]
  have hmb : (kill_removals st "*scratch*").buffers = [] := by
    show aremove st.buffers "*scratch*" = []
    rw [hbuf]
    simp [aremove]
  have hmidw : (kill_removals st "*scratch*").windows = st.windows := rfl
  have hmidp : (kill_removals st "*scratch*").window_points =
      st.window_points.map (fun wp => (wp.1, aremove wp.2 "*scratch*")) := rfl
  have hrb : recent_buffer (kill_removals st "*scratch*") ["*scratch*"] = none :=
    recent_buffer_empty _ hmb _
  have hsb : (ensure_buffer (kill_removals st "*scratch*") "*scratch*").buffers =
      [("*scratch*", "")] := by
    unfold ensure_buffer
    rw [hmb]
    rfl
  have hsblook : alookup (ensure_buffer (kill_removals st "*scratch*") "*scratch*").buffers
      "*scratch*" = some "" := by
    rw [hsb]
    decide
  have hsbw : (ensure_buffer (kill_removals st "*scratch*") "*scratch*").windows =
      st.windows := by
    rw [ensure_buffer_windows, hmidw]
  have hsbp : (ensure_buffer (kill_removals st "*scratch*") "*scratch*").window_points =
      st.window_points.map (fun wp => (wp.1, aremove wp.2 "*scratch*")) := by
    rw [ensure_buffer_points, hmidp]
  have hkrb : (kill_reassign "*scratch*" "*scratch*"
      (ensure_buffer (kill_removals st "*scratch*") "*scratch*")
      (ensure_buffer (kill_removals st "*scratch*") "*scratch*").windows).buffers =
      [("*scratch*", "")] := by
    rw [kill_reassign_buffers_present "*scratch*" "*scratch*" "" _ _ hsblook, hsb]
  have hwchar := kill_reassign_windows "*scratch*" "*scratch*"
    (ensure_buffer (kill_removals st "*scratch*") "*scratch*").windows
    (ensure_buffer (kill_removals st "*scratch*") "*scratch*")
    (by rw [hsbw]; exact hwkeys) (fun wid' w' hl => hl)
  refine ⟨mark_buffer_recent
      (kill_reassign "*scratch*" "*scratch*"
        (ensure_buffer (kill_removals st "*scratch*") "*scratch*")
        (ensure_buffer (kill_removals st "*scratch*") "*scratch*").windows) "*scratch*",
    ?_, ?_, ?_, ?_, ?_, ?_⟩
  · simp only [kill_buffer, hB, hrb]
  · rw [mark_buffer_recent_buffers_present _ _ "" (by rw [hkrb]; decide), hkrb]
    decide
  · rw [mark_buffer_recent_history]
    rfl
  · intro wid w hw
    have hw' : alookup (ensure_buffer (kill_removals st "*scratch*") "*scratch*").windows
        wid = some w := by rw [hsbw]; exact hw
    rw [mark_buffer_recent_windows, hwchar wid, hw']
    have hwb : w.buffer = "*scratch*" := hwin wid w hw
    obtain ⟨wi, wb⟩ := w
    simp only at hwb
    subst hwb
    simp
  · intro wid w hw
    rw [mark_buffer_recent_windows, hwchar wid] at hw
    cases hl : alookup (ensure_buffer (kill_removals st "*scratch*") "*scratch*").windows
        wid with
    | some w0 =>
        rw [hl] at hw
        simp only [Option.some.injEq] at hw
        by_cases hb0 : w0.buffer = "*scratch*"
        · rw [if_pos hb0] at hw
          rw [← hw]
        · rw [if_neg hb0] at hw
          rw [← hw]
          exact absurd (hwin wid w0 (by rw [← hsbw]; exact hl)) hb0
    | none =>
        rw [hl] at hw
        simp at hw
  · intro wid w hw
    have hw' : alookup (ensure_buffer (kill_removals st "*scratch*") "*scratch*").windows
        wid = some w := by rw [hsbw]; exact hw
    have hz := kill_reassign_points_zero "*scratch*" "*scratch*"
      (ensure_buffer (kill_removals st "*scratch*") "*scratch*").windows
      (ensure_buffer (kill_removals st "*scratch*") "*scratch*")
      (by rw [hsbw]; exact hwkeys)
      (fun wid' w' hl => hwin wid' w' (by rw [← hsbw]; exact hl))
      (fun wid' _ pts hp => by
        rw [hsbp, alookup_map_aremove] at hp
        cases hq : alookup st.window_points wid' with
        | none => rw [hq] at hp; cases hp
        | some pts0 =>
            rw [hq] at hp
            simp only [Option.map_some'] at hp
            rw [← Option.some.inj hp, alookup_aremove, if_pos rfl])
      wid w hw'
    obtain ⟨pts, hpts, hzero⟩ := hz
    refine ⟨pts, ?_, hzero⟩
    rw [mark_buffer_recent_points]
    exact hpts

/-- Witness for C10 at the initial state. -/
theorem pymacs_C10_kill_only_scratch_witness :
    ∃ st', kill_buffer initState "*scratch*" = .ok (st', "*scratch*") ∧
      alookup st'.buffers "*scratch*" = some "" ∧
      st'.buffer_history.head? = some "*scratch*" := by
  obtain ⟨st', h1, h2, h3, _⟩ :=
    pymacs_C10_kill_only_scratch initState "" rfl (by decide) (by
      intro wid w hw
      have hw' : (if 1 = wid then some (⟨1, "*scratch*"⟩ : Window) else none) = some w := hw
      by_cases h : 1 = wid
      · rw [if_pos h] at hw'
        rw [← Option.some.inj hw']
      · rw [if_neg h] at hw'
        cases hw')
  exact ⟨st', h1, h2, h3⟩

/-! ### Claim C7: the clamping invariant for window points -/

/-- Every stored point entry refers to a live buffer and lies within
`[0, len(text)]` (points are `Nat`, so the lower bound is intrinsic); inner
point tables have no duplicate keys. -/
def PointsInv (st : EditorState) : Prop :=
  ∀ wp ∈ st.window_points, (akeys wp.2).Nodup ∧
    ∀ bp ∈ wp.2, ∃ tx, alookup st.buffers bp.1 = some tx ∧ bp.2 ≤ tx.length

/-- Executable check for `PointsInv`. -/
def pointsInvB (st : EditorState) : Bool :=
  st.window_points.all (fun wp =>
    decide (akeys wp.2).Nodup && wp.2.all (fun bp =>
      match alookup st.buffers bp.1 with
      | some tx => decide (bp.2 ≤ tx.length)
      | none => false))

theorem pointsInvB_iff (st : EditorState) : pointsInvB st = true ↔ PointsInv st := by
  unfold pointsInvB PointsInv
  simp only [List.all_eq_true, Bool.and_eq_true, decide_eq_true_eq]
  constructor
  · intro h wp hwp
    obtain ⟨hnd, h2⟩ := h wp hwp
    refine ⟨hnd, fun bp hbp => ?_⟩
    have := h2 bp hbp
    cases ho : alookup st.buffers bp.1 with
    | none => rw [ho] at this; cases this
    | some tx =>
        rw [ho] at this
        exact ⟨tx, rfl, by simpa using this⟩
  · intro h wp hwp
    obtain ⟨hnd, h2⟩ := h wp hwp
    refine ⟨hnd, fun bp hbp => ?_⟩
    obtain ⟨tx, htx, hle⟩ := h2 bp hbp
    rw [htx]
    simpa using hle

instance pointsInv_decidable (st : EditorState) : Decidable (PointsInv st) :=
  decidable_of_iff _ (pointsInvB_iff st)

theorem alookup_mem_pair {α β : Type} [DecidableEq α] {l : List (α × β)} {k : α} {v : β}
    (h : alookup l k = some v) : (k, v) ∈ l := by
  induction l with
  | nil => cases h
  | cons hd tl ih =>
      obtain ⟨k', v'⟩ := hd
      rw [alookup_cons] at h
      by_cases hk : k' = k
      · rw [if_pos hk] at h
        subst hk
        cases h
        exact List.mem_cons_self _ _
      · rw [if_neg hk] at h
        exact List.mem_cons_of_mem _ (ih h)

theorem mem_aset {α β : Type} [DecidableEq α] {l : List (α × β)} {k : α} {v : β} :
    ∀ x ∈ aset l k v, x ∈ l ∨ x = (k, v) := by
  induction l with
  | nil =>
      intro x hx
      simp only [aset, List.mem_singleton] at hx
      exact Or.inr hx
  | cons hd tl ih =>
      obtain ⟨k', v'⟩ := hd
      intro x hx
      by_cases hk : k' = k
      · rw [show aset ((k', v') :: tl) k v = (k, v) :: tl from by simp [aset, hk]] at hx
        cases hx with
        | head => exact Or.inr rfl
        | tail _ h => exact Or.inl (List.mem_cons_of_mem _ h)
      · rw [show aset ((k', v') :: tl) k v = (k', v') :: aset tl k v from
          by simp [aset, hk]] at hx
        cases hx with
        | head => exact Or.inl (List.mem_cons_self _ _)
        | tail _ h =>
            rcases ih x h with h | h
            · exact Or.inl (List.mem_cons_of_mem _ h)
            · exact Or.inr h

theorem akeys_aset_of_not_mem {α β : Type} [DecidableEq α] {l : List (α × β)} {k : α}
    (v : β) (h : k ∉ akeys l) : akeys (aset l k v) = akeys l ++ [k] := by
  induction l with
  | nil => rfl
  | cons hd tl ih =>
      obtain ⟨k', v'⟩ := hd
      simp only [akeys, List.map_cons, List.mem_cons] at h
      push_neg at h
      have hk : ¬ k' = k := fun he => h.1 he.symm
      simp only [aset, if_neg hk, akeys, List.map_cons, List.cons_append]
      rw [show List.map Prod.fst (aset tl k v) = akeys (aset tl k v) from rfl,
        ih (by simpa [akeys] using h.2)]
      rfl

theorem akeys_nodup_aset {α β : Type} [DecidableEq α] {l : List (α × β)} {k : α} (v : β)
    (hnd : (akeys l).Nodup) : (akeys (aset l k v)).Nodup := by
  by_cases h : k ∈ akeys l
  · rw [akeys_aset_of_mem v h]
    exact hnd
  · rw [akeys_aset_of_not_mem v h]
    simp [List.nodup_append, hnd, h]

theorem mem_aset_nodup {α β : Type} [DecidableEq α] {l : List (α × β)} {k : α} {v : β}
    (hnd : (akeys l).Nodup) :
    ∀ x ∈ aset l k v, (x ∈ l ∧ x.1 ≠ k) ∨ x = (k, v) := by
  induction l with
  | nil =>
      intro x hx
      simp only [aset, List.mem_singleton] at hx
      exact Or.inr hx
  | cons hd tl ih =>
      obtain ⟨k', v'⟩ := hd
      simp only [akeys, List.map_cons, List.nodup_cons] at hnd
      intro x hx
      by_cases hk : k' = k
      · rw [show aset ((k', v') :: tl) k v = (k, v) :: tl from by simp [aset, hk]] at hx
        cases hx with
        | head => exact Or.inr rfl
        | tail _ h =>
            refine Or.inl ⟨List.mem_cons_of_mem _ h, ?_⟩
            intro he
            apply hnd.1
            rw [hk, ← he]
            exact List.mem_map_of_mem Prod.fst h
      · rw [show aset ((k', v') :: tl) k v = (k', v') :: aset tl k v from
          by simp [aset, hk]] at hx
        cases hx with
        | head => exact Or.inl ⟨List.mem_cons_self _ _, hk⟩
        | tail _ h =>
            rcases ih hnd.2 x h with ⟨h1, h2⟩ | h
            · exact Or.inl ⟨List.mem_cons_of_mem _ h1, h2⟩
            · exact Or.inr h

theorem ensure_buffer_inv {st : EditorState} (b : String) (h : PointsInv st) :
    PointsInv (ensure_buffer st b) := by
  intro wp hwp
  rw [show (ensure_buffer st b).window_points = st.window_points from
    by rw [ensure_buffer_eq]] at hwp
  obtain ⟨hnd, h2⟩ := h wp hwp
  refine ⟨hnd, fun bp hbp => ?_⟩
  obtain ⟨tx, htx, hle⟩ := h2 bp hbp
  refine ⟨tx, ?_, hle⟩
  by_cases hb : bp.1 = b
  · subst hb
    rw [ensure_buffer_of_present st bp.1 tx htx]
    exact htx
  · rw [ensure_buffer_lookup_ne st b bp.1 hb]
    exact htx

theorem ensure_window_point_inv {st : EditorState} (wid : Nat) (b : String)
    (h : PointsInv st) : PointsInv (ensure_window_point st wid b) := by
  have h1 : PointsInv (ensure_buffer st b) := ensure_buffer_inv b h
  obtain ⟨tx, htx⟩ := ensure_buffer_lookup st b
  intro wp hwp
  suffices hgoal : (akeys wp.2).Nodup ∧ ∀ bp ∈ wp.2,
      ∃ tx, alookup (ensure_buffer st b).buffers bp.1 = some tx ∧ bp.2 ≤ tx.length by
    exact hgoal
  simp only [ensure_window_point] at hwp
  cases hp : alookup (ensure_buffer st b).window_points wid with
  | none =>
      rw [hp] at hwp
      have hwp' : wp ∈ aset (ensure_buffer st b).window_points wid [(b, 0)] := hwp
      rcases mem_aset wp hwp' with hm | hm
      · exact h1 wp hm
      · rw [hm]
        refine ⟨by simp [akeys], fun bp hbp => ?_⟩
        simp only [List.mem_singleton] at hbp
        rw [hbp]
        exact ⟨tx, htx, by simp⟩
  | some pts =>
      rw [hp] at hwp
      simp only [Option.getD_some] at hwp
      obtain ⟨hnd, h2⟩ := h1 (wid, pts) (alookup_mem_pair hp)
      cases hb : alookup pts b with
      | some p0 =>
          rw [hb] at hwp
          have hwp' : wp ∈ aset (ensure_buffer st b).window_points wid pts := hwp
          rcases mem_aset wp hwp' with hm | hm
          · exact h1 wp hm
          · rw [hm]
            exact ⟨hnd, h2⟩
      | none =>
          rw [hb] at hwp
          have hwp' : wp ∈ aset (ensure_buffer st b).window_points wid (aset pts b 0) :=
            hwp
          rcases mem_aset wp hwp' with hm | hm
          · exact h1 wp hm
          · rw [hm]
            refine ⟨akeys_nodup_aset 0 hnd, fun bp hbp => ?_⟩
            rcases mem_aset bp hbp with hbp' | hbp'
            · exact h2 bp hbp'
            · rw [hbp']
              exact ⟨tx, htx, by simp⟩

theorem window_buffer_inv {st st2 : EditorState} {wid : Nat} {bn : String}
    (h : PointsInv st) (hwb : window_buffer st wid = some (bn, st2)) :
    PointsInv st2 ∧ ∃ tx, alookup st2.buffers bn = some tx := by
  unfold window_buffer at hwb
  cases hw : alookup st.windows wid with
  | none => rw [hw] at hwb; cases hwb
  | some w =>
      rw [hw] at hwb
      have hp : (w.buffer, ensure_buffer st w.buffer) = (bn, st2) := Option.some.inj hwb
      have hb : w.buffer = bn := congrArg Prod.fst hp
      have hst : ensure_buffer st w.buffer = st2 := congrArg Prod.snd hp
      subst hb
      rw [← hst]
      exact ⟨ensure_buffer_inv w.buffer h, ensure_buffer_lookup st w.buffer⟩

theorem selected_buffer_inv {st st1 : EditorState} {B : String}
    (h : PointsInv st) (hsb : selected_buffer st = some (B, st1)) : PointsInv st1 := by
  unfold selected_buffer at hsb
  cases hw : alookup st.windows st.selected_window_id with
  | none => rw [hw] at hsb; cases hsb
  | some w =>
      rw [hw] at hsb
      have hst : ensure_window_point (ensure_buffer st w.buffer) w.id w.buffer = st1 :=
        congrArg Prod.snd (Option.some.inj hsb)
      rw [← hst]
      exact ensure_window_point_inv w.id w.buffer (ensure_buffer_inv w.buffer h)

theorem set_window_cursor_inv {st st' : EditorState} {wid : Nat} {c : Int}
    (h : PointsInv st) (hs : set_window_cursor st wid c = some st') : PointsInv st' := by
  unfold set_window_cursor at hs
  cases hwb : window_buffer st wid with
  | none => rw [hwb] at hs; cases hs
  | some pr =>
      obtain ⟨bn, st2⟩ := pr
      rw [hwb] at hs
      obtain ⟨h2inv, text, htext⟩ := window_buffer_inv h hwb
      simp only [htext] at hs
      have hst' : st' =
          { st2 with
              window_points :=
                aset st2.window_points wid
                  (aset ((alookup st2.window_points wid).getD []) bn
                    (max 0 (min c (text.length : Int))).toNat) } :=
        (Option.some.inj hs).symm
      rw [hst']
      intro wp hwp
      suffices hgoal : (akeys wp.2).Nodup ∧ ∀ bp ∈ wp.2,
          ∃ tx, alookup st2.buffers bp.1 = some tx ∧ bp.2 ≤ tx.length by
        exact hgoal
      rcases mem_aset wp hwp with hm | hm
      · exact h2inv wp hm
      · rw [hm]
        have hval : (max 0 (min c (text.length : Int))).toNat ≤ text.length := by omega
        cases hpts : alookup st2.window_points wid with
        | none =>
            simp only [hpts, Option.getD_none]
            refine ⟨by simp [aset, akeys], fun bp hbp => ?_⟩
            simp only [aset, List.mem_singleton] at hbp
            rw [hbp]
            exact ⟨text, htext, hval⟩
        | some pts =>
            simp only [hpts, Option.getD_some]
            obtain ⟨hnd, hpe⟩ := h2inv (wid, pts) (alookup_mem_pair hpts)
            refine ⟨akeys_nodup_aset _ hnd, fun bp hbp => ?_⟩
            rcases mem_aset bp hbp with hbp' | hbp'
            · exact hpe bp hbp'
            · rw [hbp']
              exact ⟨text, htext, hval⟩

theorem set_current_text_inv {st st' : EditorState} {s : String}
    (h : PointsInv st) (hs : set_current_text st s = some st') : PointsInv st' := by
  unfold set_current_text at hs
  cases hsb : selected_buffer st with
  | none => rw [hsb] at hs; cases hs
  | some pr =>
      obtain ⟨B, st1⟩ := pr
      rw [hsb] at hs
      have h1 : PointsInv st1 := selected_buffer_inv h hsb
      have hst' : st' =
          { st1 with
              buffers := aset st1.buffers B s,
              window_points := st1.window_points.map (fun wp =>
                (wp.1,
                 match alookup wp.2 B with
                 | none => wp.2
                 | some p => aset wp.2 B (max 0 (min p s.length)))) } :=
        (Option.some.inj hs).symm
      rw [hst']
      intro wp hwp
      suffices hgoal : (akeys wp.2).Nodup ∧ ∀ bp ∈ wp.2,
          ∃ tx, alookup (aset st1.buffers B s) bp.1 = some tx ∧ bp.2 ≤ tx.length by
        exact hgoal
      rw [List.mem_map] at hwp
      obtain ⟨wq, hwq, hmap⟩ := hwp
      obtain ⟨hnd, h2⟩ := h1 wq hwq
      rw [← hmap]
      cases hpb : alookup wq.2 B with
      | none =>
          simp only [hpb]
          refine ⟨hnd, fun bp hbp => ?_⟩
          obtain ⟨tx, htx, hle⟩ := h2 bp hbp
          have hne : bp.1 ≠ B := by
            intro he
            have : alookup wq.2 bp.1 = none := he ▸ hpb
            rw [alookup_eq_none_iff] at this
            exact this (List.mem_map_of_mem Prod.fst hbp)
          refine ⟨tx, ?_, hle⟩
          rw [alookup_aset, if_neg (fun he => hne he.symm)]
          exact htx
      | some p =>
          simp only [hpb]
          refine ⟨akeys_nodup_aset _ hnd, fun bp hbp => ?_⟩
          rcases mem_aset_nodup hnd bp hbp with ⟨hbp', hne⟩ | hbp'
          · obtain ⟨tx, htx, hle⟩ := h2 bp hbp'
            refine ⟨tx, ?_, hle⟩
            rw [alookup_aset, if_neg (fun he => hne he.symm)]
            exact htx
          · rw [hbp']
            refine ⟨s, ?_, by omega⟩
            rw [alookup_aset, if_pos rfl]

theorem alookup_map_snd {α β γ : Type} [DecidableEq α] (g : β → γ) (l : List (α × β))
    (k : α) : alookup (l.map (fun p => (p.1, g p.2))) k = (alookup l k).map g := by
  induction l with
  | nil => rfl
  | cons hd tl ih =>
      obtain ⟨k', v'⟩ := hd
      simp only [List.map_cons, alookup_cons]
      by_cases hk : k' = k
      · rw [if_pos hk, if_pos hk]
        rfl
      · rw [if_neg hk, if_neg hk]
        exact ih

/-- What `set_window_cursor` stores: the clamp of its argument into
`[0, len(text)]` for the window's buffer. -/
theorem set_window_cursor_stores {st st' : EditorState} {wid : Nat} {c : Int}
    (hs : set_window_cursor st wid c = some st') :
    ∃ bn st2 text pts,
      window_buffer st wid = some (bn, st2) ∧
      alookup st2.buffers bn = some text ∧
      alookup st'.window_points wid = some pts ∧
      alookup pts bn = some (max 0 (min c (text.length : Int))).toNat ∧
      (max 0 (min c (text.length : Int))).toNat ≤ text.length := by
  unfold set_window_cursor at hs
  cases hwb : window_buffer st wid with
  | none => rw [hwb] at hs; cases hs
  | some pr =>
      obtain ⟨bn, st2⟩ := pr
      rw [hwb] at hs
      cases htext : alookup st2.buffers bn with
      | none =>
          simp only [htext] at hs
          cases hs
      | some text =>
          simp only [htext] at hs
          have hst' : st' =
              { st2 with
                  window_points :=
                    aset st2.window_points wid
                      (aset ((alookup st2.window_points wid).getD []) bn
                        (max 0 (min c (text.length : Int))).toNat) } :=
            (Option.some.inj hs).symm
          refine ⟨bn, st2, text,
            aset ((alookup st2.window_points wid).getD []) bn
              (max 0 (min c (text.length : Int))).toNat,
            rfl, htext, ?_, ?_, by omega⟩
          · rw [hst']
            show alookup (aset st2.window_points wid _) wid = _
            rw [alookup_aset, if_pos rfl]
          · rw [alookup_aset, if_pos rfl]

/-- What `set_current_text` does to points: after it, every window's stored
point for the selected buffer is at most the new text's length. -/
theorem set_current_text_reclamps {st st' : EditorState} {s : String}
    (hs : set_current_text st s = some st') :
    ∃ B st1, selected_buffer st = some (B, st1) ∧
      alookup st'.buffers B = some s ∧
      ∀ wid pts p, alookup st'.window_points wid = some pts →
        alookup pts B = some p → p ≤ s.length := by
  unfold set_current_text at hs
  cases hsb : selected_buffer st with
  | none => rw [hsb] at hs; cases hs
  | some pr =>
      obtain ⟨B, st1⟩ := pr
      rw [hsb] at hs
      have hst' : st' =
          { st1 with
              buffers := aset st1.buffers B s,
              window_points := st1.window_points.map (fun wp =>
                (wp.1,
                 match alookup wp.2 B with
                 | none => wp.2
                 | some p => aset wp.2 B (max 0 (min p s.length)))) } :=
        (Option.some.inj hs).symm
      refine ⟨B, st1, rfl, ?_, ?_⟩
      · rw [hst']
        show alookup (aset st1.buffers B s) B = some s
        rw [alookup_aset, if_pos rfl]
      · intro wid pts p hpts hpB
        rw [hst'] at hpts
        have hpts' : (alookup st1.window_points wid).map (fun q =>
            match alookup q B with
            | none => q
            | some p => aset q B (max 0 (min p s.length))) = some pts := by
          rw [← alookup_map_snd]
          exact hpts
        cases hq : alookup st1.window_points wid with
        | none => rw [hq] at hpts'; cases hpts'
        | some q =>
            rw [hq] at hpts'
            have hpts'' : (match alookup q B with
                | none => q
                | some p => aset q B (max 0 (min p s.length))) = pts :=
              Option.some.inj hpts'
            cases hqB : alookup q B with
            | none =>
                rw [hqB] at hpts''
                rw [← hpts''] at hpB
                rw [hqB] at hpB
                cases hpB
            | some p0 =>
                rw [hqB] at hpts''
                rw [← hpts''] at hpB
                rw [alookup_aset, if_pos rfl] at hpB
                have := Option.some.inj hpB
                omega

/-- A mutation step: replace the selected buffer's text, or set a window's
cursor. -/
inductive TextMut where
  | setText (s : String)
  | setCursor (wid : Nat) (c : Int)
deriving DecidableEq

/-- Apply one mutation. -/
def applyMut (st : EditorState) : TextMut → Option EditorState
  | .setText s => set_current_text st s
  | .setCursor wid c => set_window_cursor st wid c

/-- Apply a sequence of mutations, failing if any step fails. -/
def applyMuts : List TextMut → EditorState → Option EditorState
  | [], st => some st
  | m :: rest, st =>
      match applyMut st m with
      | none => none
      | some st2 => applyMuts rest st2

theorem applyMut_inv {st st' : EditorState} {m : TextMut}
    (h : PointsInv st) (hs : applyMut st m = some st') : PointsInv st' := by
  cases m with
  | setText s => exact set_current_text_inv h hs
  | setCursor wid c => exact set_window_cursor_inv h hs

theorem applyMuts_inv {ops : List TextMut} :
    ∀ {st st' : EditorState}, PointsInv st → applyMuts ops st = some st' →
      PointsInv st' := by
  induction ops with
  | nil =>
      intro st st' h hs
      cases hs
      exact h
  | cons m rest ih =>
      intro st st' h hs
      unfold applyMuts at hs
      cases hm : applyMut st m with
      | none => rw [hm] at hs; cases hs
      | some st2 =>
          rw [hm] at hs
          exact ih (applyMut_inv h hm) hs

/-- **C7.** Starting from a state whose stored points are all in range (every
point entry names a live buffer and is at most the buffer text's length),
every sequence of text/cursor mutations preserves that invariant; moreover
`set_window_cursor` stores exactly the clamp `max 0 (min cursor len)` of its
argument into `[0, len]` for the window's buffer, and `set_current_text`
re-clamps the stored point of every window holding a point entry for the
selected buffer — not only the selected window — to at most the new length. -/
theorem pymacs_C7_cursor_clamped (st : EditorState) (hinv : PointsInv st) :
    (∀ ops st', applyMuts ops st = some st' → PointsInv st') ∧
    (∀ wid c st', set_window_cursor st wid c = some st' →
      ∃ bn st2 text pts,
        window_buffer st wid = some (bn, st2) ∧
        alookup st2.buffers bn = some text ∧
        alookup st'.window_points wid = some pts ∧
        alookup pts bn = some (max 0 (min c (text.length : Int))).toNat ∧
        (max 0 (min c (text.length : Int))).toNat ≤ text.length) ∧
    (∀ s st', set_current_text st s = some st' →
      ∃ B st1, selected_buffer st = some (B, st1) ∧
        alookup st'.buffers B = some s ∧
        ∀ wid pts p, alookup st'.window_points wid = some pts →
          alookup pts B = some p → p ≤ s.length) := by
  refine ⟨fun ops st' hs => applyMuts_inv hinv hs,
    fun wid c st' hs => set_window_cursor_stores hs,
    fun s st' hs => set_current_text_reclamps hs⟩

/-- Witness for C7 at the initial state: the invariant holds, a concrete
mutation sequence (set text "hello", then cursor 99 — clamped to 5) succeeds,
and the resulting state still satisfies the invariant. -/
theorem pymacs_C7_cursor_clamped_witness :
    PointsInv initState ∧
    ∃ st', applyMuts [TextMut.setText "hello", TextMut.setCursor 1 99] initState
        = some st' ∧ PointsInv st' := by
  refine ⟨by decide, ?_⟩
  have hso : (applyMuts [TextMut.setText "hello", TextMut.setCursor 1 99]
      initState).isSome = true := by decide
  cases hs : applyMuts [TextMut.setText "hello", TextMut.setCursor 1 99] initState with
  | none => rw [hs] at hso; cases hso
  | some st' =>
      exact ⟨st', rfl, (pymacs_C7_cursor_clamped initState (by decide)).1 _ st' hs⟩

/-! ## Editor runtime (embedding of `pymacs/core.py`)

Python's `buffer or self.state.selected_buffer()` treats `None` and `""` as
falsy; `orSelected` models it, returning `none` for the `KeyError` a missing
selected window raises. Keymaps are the association lists stored in
`EditorState`; command functions are modelled as `Nat → Nat` and hooks as
`(name, fails)` pairs, a hook raising iff `fails`. -/

/-- `KeyBindingInfo` from `core.py`. -/
structure KeyBindingInfo where
  sequence : KeySeq
  command_name : String
  scope : String
  buffer : Option String
  mode : Option String
deriving DecidableEq, Repr

/-- `buffer or self.state.selected_buffer()`. -/
def orSelected (st : EditorState) (buffer : Option String) :
    Option (String × EditorState) :=
  match buffer with
  | some b => if b = "" then selected_buffer st else some (b, st)
  | none => selected_buffer st

/-- `_active_keymaps`: mode keymaps (most recently enabled first), then the
buffer-local keymap, then the global keymap, each tagged
`(scope, mode, buffer, keymap)`. -/
def active_keymaps (st : EditorState) (buffer : String) :
    List (String × Option String × Option String × List (KeySeq × String)) :=
  (((alookup st.buffer_modes buffer).getD []).reverse.map (fun mode_name =>
      ("mode", some mode_name, some buffer,
        (alookup st.mode_keymaps mode_name).getD [])))
    ++ [("buffer", none, some buffer, (alookup st.buffer_keymaps buffer).getD []),
        ("global", none, none, st.global_keymap)]

/-- The scan loop of `describe_key`: the first active keymap binding the key
wins. -/
def describe_key_aux (key : KeySeq) :
    List (String × Option String × Option String × List (KeySeq × String)) →
      Option KeyBindingInfo
  | [] => none
  | (scope, mode_name, target_buffer, keymap) :: rest =>
      match alookup keymap key with
      | some command_name => some ⟨key, command_name, scope, target_buffer, mode_name⟩
      | none => describe_key_aux key rest

/-- `describe_key` on an already-parsed key: `none` models the `KeyError`
(unbound sequence, or missing selected window). -/
def describe_key (st : EditorState) (key : KeySeq) (buffer : Option String) :
    Option (KeyBindingInfo × EditorState) :=
  match orSelected st buffer with
  | none => none
  | some (target, st) =>
      (describe_key_aux key (active_keymaps st target)).map (fun info => (info, st))

/-- `enable_mode`: append the mode to the buffer's mode list if absent. -/
def enable_mode (st : EditorState) (mode : String) (buffer : Option String) :
    Option EditorState :=
  match orSelected st buffer with
  | none => none
  | some (target, st) =>
      let modes := (alookup st.buffer_modes target).getD []
      let modes' := if mode ∈ modes then modes else modes ++ [mode]
      some { st with buffer_modes := aset st.buffer_modes target modes' }

/-- `disable_mode`: remove the first occurrence of the mode from the buffer's
mode list, if the list exists and is non-empty. -/
def disable_mode (st : EditorState) (mode : String) (buffer : Option String) :
    Option EditorState :=
  match orSelected st buffer with
  | none => none
  | some (target, st) =>
      match alookup st.buffer_modes target with
      | none => some st
      | some modes =>
          if modes = [] then some st
          else if mode ∈ modes then
            some { st with buffer_modes := aset st.buffer_modes target (modes.erase mode) }
          else some st

/-- Python string `<` (codepoint lexicographic) on whole strings. -/
def strLtS (a b : String) : Bool := strLt a.data b.data

/-- Python tuple `<` on key sequences: lexicographic over string `<`. -/
def seqLt : KeySeq → KeySeq → Bool
  | [], [] => false
  | [], _ :: _ => true
  | _ :: _, [] => false
  | a :: as, b :: bs =>
      if strLtS a b then true else if strLtS b a then false else seqLt as bs

/-- Insert a keymap item into a list sorted by sequence. -/
def insertByKey (x : KeySeq × String) :
    List (KeySeq × String) → List (KeySeq × String)
  | [] => [x]
  | y :: ys => if seqLt y.1 x.1 then y :: insertByKey x ys else x :: y :: ys

/-- `sorted(keymap.items(), key=lambda item: item[0])`. -/
def sortByKey : List (KeySeq × String) → List (KeySeq × String)
  | [] => []
  | x :: xs => insertByKey x (sortByKey xs)

/-- A command's function (`CommandInfo.fn`), abstracted as `Nat → Nat`; a
hook is `(name, fails)`, failing iff the flag is set. -/
structure Editor where
  state : EditorState
  commands : List (String × (Nat → Nat))
  hooks : List (String × List (String × Bool))

/-- `where_is`: for each active keymap in precedence order, the sequence-sorted
items bound to the command; `none` models the `KeyError` for an unknown
command or a missing selected window. -/
def where_is (ed : Editor) (name : String) (buffer : Option String) :
    Option (List KeyBindingInfo × EditorState) :=
  if (alookup ed.commands name).isSome = false then none
  else
    match orSelected ed.state buffer with
    | none => none
    | some (target, st) =>
        some ((active_keymaps st target).flatMap (fun e =>
          ((sortByKey e.2.2.2).filter (fun p => p.2 = name)).map (fun p =>
            ⟨p.1, p.2, e.1, e.2.2.1, e.2.1⟩)), st)

/-- `has_prefix_binding`: some active keymap binds a strict extension of the
key. -/
def has_prefix_binding (st : EditorState) (key : KeySeq) (buffer : Option String) :
    Option Bool :=
  match orSelected st buffer with
  | none => none
  | some (target, st) =>
      some ((active_keymaps st target).any (fun e =>
        e.2.2.2.any (fun p =>
          decide (key.length < p.1.length) && decide (p.1.take key.length = key))))

/-- `emit`: notify every hook of the event in order; a failing hook is caught
and logged. Returns `(notified hook names, caught failures)`. -/
def emit (ed : Editor) (event : String) : List String × List String :=
  ((alookup ed.hooks event).getD []).foldl
    (fun acc h => (acc.1 ++ [h.1], if h.2 then acc.2 ++ [h.1] else acc.2)) ([], [])

/-- `run`: look up the command, emit `before-command`, run the function, emit
`after-command`, and return the function's result together with both
notification logs. -/
def run (ed : Editor) (name : String) (arg : Nat) :
    Except String (Nat × (List String × List String) × (List String × List String)) :=
  match alookup ed.commands name with
  | none => .error ("unknown command: " ++ name)
  | some fn => .ok (fn arg, emit ed "before-command", emit ed "after-command")

/-! ### Claim C8: hook fault isolation -/

theorem emit_foldl (l : List (String × Bool)) (acc : List String × List String) :
    l.foldl (fun acc h => (acc.1 ++ [h.1], if h.2 then acc.2 ++ [h.1] else acc.2)) acc =
      (acc.1 ++ l.map Prod.fst, acc.2 ++ (l.filter (fun h => h.2)).map Prod.fst) := by
  induction l generalizing acc with
  | nil => simp
  | cons hd tl ih =>
      simp only [List.foldl_cons, List.map_cons, List.filter_cons, ih]
      cases hf : hd.2 with
      | true => simp
      | false => simp

theorem emit_spec (ed : Editor) (event : String) :
    (emit ed event).1 = ((alookup ed.hooks event).getD []).map Prod.fst ∧
    (emit ed event).2 =
      (((alookup ed.hooks event).getD []).filter (fun h => h.2)).map Prod.fst := by
  unfold emit
  rw [emit_foldl]
  simp

/-- **C8.** If the command is registered, `run` returns the command function's
result as `.ok` no matter which hooks fail: every hook registered for the
before/after events is notified, in registration order, regardless of any
failures among them; the failures are exactly the caught (logged) ones; and no
hook failure ever surfaces as an error to the caller. -/
theorem pymacs_C8_hook_isolation (ed : Editor) (name : String) (fn : Nat → Nat)
    (arg : Nat) (hc : alookup ed.commands name = some fn) :
    run ed name arg = .ok (fn arg, emit ed "before-command", emit ed "after-command") ∧
    (∀ event, (emit ed event).1 = ((alookup ed.hooks event).getD []).map Prod.fst) ∧
    (∀ event, (emit ed event).2 =
      (((alookup ed.hooks event).getD []).filter (fun h => h.2)).map Prod.fst) := by
  refine ⟨?_, fun event => (emit_spec ed event).1, fun event => (emit_spec ed event).2⟩
  unfold run
  rw [hc]

/-- Witness for C8: a registry with one command and three before-hooks of
which the middle one fails; `run` still notifies all three, records the single
caught failure, and returns the command's result. -/
theorem pymacs_C8_hook_isolation_witness :
    run
      { state := initState, commands := [("inc", fun n => n + 1)],
        hooks := [("before-command", [("h1", false), ("h2", true), ("h3", false)])] }
      "inc" 41 =
      .ok (42, (["h1", "h2", "h3"], ["h2"]), ([], [])) :=
  (pymacs_C8_hook_isolation
    { state := initState, commands := [("inc", fun n => n + 1)],
      hooks := [("before-command", [("h1", false), ("h2", true), ("h3", false)])] }
    "inc" (fun n => n + 1) 41 rfl).1

/-! ### Claim C4: key resolution precedence -/

theorem orSelected_some (st : EditorState) {B : String} (hB : B ≠ "") :
    orSelected st (some B) = some (B, st) := by
  show (if B = "" then selected_buffer st else some (B, st)) = some (B, st)
  rw [if_neg hB]

theorem describe_key_eq (st : EditorState) (key : KeySeq) {B : String} (hB : B ≠ "") :
    describe_key st key (some B) =
      (describe_key_aux key (active_keymaps st B)).map (fun info => (info, st)) := by
  simp only [describe_key, orSelected_some st hB]

theorem describe_key_aux_hit {key : KeySeq} {keymap : List (KeySeq × String)}
    {c : String} (scope : String) (mode_name target_buffer : Option String)
    (rest : List (String × Option String × Option String × List (KeySeq × String)))
    (h : alookup keymap key = some c) :
    describe_key_aux key ((scope, mode_name, target_buffer, keymap) :: rest) =
      some ⟨key, c, scope, target_buffer, mode_name⟩ := by
  unfold describe_key_aux
  rw [h]

theorem describe_key_aux_miss {key : KeySeq} {keymap : List (KeySeq × String)}
    (scope : String) (mode_name target_buffer : Option String)
    (rest : List (String × Option String × Option String × List (KeySeq × String)))
    (h : alookup keymap key = none) :
    describe_key_aux key ((scope, mode_name, target_buffer, keymap) :: rest) =
      describe_key_aux key rest := by
  simp only [describe_key_aux, h]

theorem disable_mode_eq (st : EditorState) (m : String) {B : String} (hB : B ≠ "")
    {modes : List String} (hms : alookup st.buffer_modes B = some modes)
    (hne : ¬ modes = []) (hmem : m ∈ modes) :
    disable_mode st m (some B) =
      some { st with buffer_modes := aset st.buffer_modes B (modes.erase m) } := by
  simp only [disable_mode, orSelected_some st hB, hms, if_neg hne, if_pos hmem]

/-- **C4.** Key resolution consults scopes in strict precedence order: enabled
modes most-recently-enabled first, then the buffer-local keymap, then the
global keymap, returning the first match. In the scenario where the key is
bound in the global keymap, in the buffer keymap of `B`, and in the keymaps of
modes `m1` and `m2` which are enabled for `B` in the order `m1` then `m2`:
`describe_key` returns the `m2` binding; after `disable_mode m2` it returns
the `m1` binding; after also disabling `m1` it returns the buffer binding; and
on the state with the buffer binding removed from `B`'s keymap it returns the
global binding. -/
theorem pymacs_C4_key_precedence
    (st : EditorState) (key : KeySeq) (B m1 m2 : String)
    (km1 km2 kb : List (KeySeq × String)) (cm1 cm2 cb cg : String)
    (hB : B ≠ "") (hm : m1 ≠ m2)
    (hmodes : alookup st.buffer_modes B = some [m1, m2])
    (hkm1 : alookup st.mode_keymaps m1 = some km1)
    (hkm2 : alookup st.mode_keymaps m2 = some km2)
    (hc1 : alookup km1 key = some cm1)
    (hc2 : alookup km2 key = some cm2)
    (hkb : alookup st.buffer_keymaps B = some kb)
    (hcb : alookup kb key = some cb)
    (hcg : alookup st.global_keymap key = some cg) :
    describe_key st key (some B) = some (⟨key, cm2, "mode", some B, some m2⟩, st) ∧
    ∃ st2, disable_mode st m2 (some B) = some st2 ∧
      describe_key st2 key (some B) = some (⟨key, cm1, "mode", some B, some m1⟩, st2) ∧
      ∃ st3, disable_mode st2 m1 (some B) = some st3 ∧
        describe_key st3 key (some B) = some (⟨key, cb, "buffer", some B, none⟩, st3) ∧
        describe_key
            { st3 with buffer_keymaps := aset st3.buffer_keymaps B (aremove kb key) }
            key (some B) =
          some (⟨key, cg, "global", none, none⟩,
            { st3 with buffer_keymaps := aset st3.buffer_keymaps B (aremove kb key) }) := by
  have herase2 : [m1, m2].erase m2 = [m1] := by simp [List.erase_cons, hm]
  have herase1 : [m1].erase m1 = [] := by simp [List.erase_cons]
  have hact1 : active_keymaps st B =
      [("mode", some m2, some B, km2), ("mode", some m1, some B, km1),
       ("buffer", none, some B, kb), ("global", none, none, st.global_keymap)] := by
    simp [active_keymaps, hmodes, hkb, hkm1, hkm2]
  constructor
  · rw [describe_key_eq st key hB, hact1, describe_key_aux_hit _ _ _ _ hc2]
    rfl
  · refine ⟨{ st with buffer_modes := aset st.buffer_modes B ([m1, m2].erase m2) },
      disable_mode_eq st m2 hB hmodes (by simp) (by simp), ?_, ?_⟩
    all_goals rw [herase2]
    · have hmodes2 : alookup (aset st.buffer_modes B [m1]) B = some [m1] := by
        rw [alookup_aset, if_pos rfl]
      have hact2 : active_keymaps
          { st with buffer_modes := aset st.buffer_modes B [m1] } B =
          [("mode", some m1, some B, km1),
           ("buffer", none, some B, kb), ("global", none, none, st.global_keymap)] := by
        simp [active_keymaps, hmodes2, hkb, hkm1]
      rw [describe_key_eq _ key hB, hact2, describe_key_aux_hit _ _ _ _ hc1]
      rfl
    · have hmodes2 : alookup (aset st.buffer_modes B [m1]) B = some [m1] := by
        rw [alookup_aset, if_pos rfl]
      refine ⟨{ st with
          buffer_modes := aset (aset st.buffer_modes B [m1]) B ([m1].erase m1) },
        disable_mode_eq _ m1 hB hmodes2 (by simp) (by simp), ?_⟩
      rw [herase1]
      have hmodes3 : alookup (aset (aset st.buffer_modes B [m1]) B []) B
          = some [] := by
        rw [alookup_aset, if_pos rfl]
      have hact3 : active_keymaps
          { st with buffer_modes := aset (aset st.buffer_modes B [m1]) B [] } B =
          [("buffer", none, some B, kb), ("global", none, none, st.global_keymap)] := by
        simp [active_keymaps, hmodes3, hkb]
      constructor
      · rw [describe_key_eq _ key hB, hact3, describe_key_aux_hit _ _ _ _ hcb]
        rfl
      · have hkb4 : alookup
            (aset ({ st with
                buffer_modes :=
                  aset (aset st.buffer_modes B [m1]) B [] }).buffer_keymaps
              B (aremove kb key)) B = some (aremove kb key) := by
          rw [alookup_aset, if_pos rfl]
        have hnone : alookup (aremove kb key) key = none := by
          rw [alookup_aremove, if_pos rfl]
        have hact4 : active_keymaps
            { st with
                buffer_modes := aset (aset st.buffer_modes B [m1]) B [],
                buffer_keymaps :=
                  aset ({ st with
                      buffer_modes :=
                        aset (aset st.buffer_modes B [m1]) B [] }).buffer_keymaps
                    B (aremove kb key) } B =
            [("buffer", none, some B, aremove kb key),
             ("global", none, none, st.global_keymap)] := by
          simp [active_keymaps, hmodes3, hkb4]
        rw [describe_key_eq _ key hB, hact4, describe_key_aux_miss _ _ _ _ hnone,
          describe_key_aux_hit _ _ _ _ hcg]
        rfl

/-- Witness for C4 at a concrete state with the key bound in all four scopes. -/
theorem pymacs_C4_key_precedence_witness :
    describe_key
        { initState with
            buffer_modes := [("B", ["m1", "m2"])],
            mode_keymaps := [("m1", [(["x"], "c1")]), ("m2", [(["x"], "c2")])],
            buffer_keymaps := [("B", [(["x"], "cb")])],
            global_keymap := [(["x"], "cg")] }
        ["x"] (some "B") =
      some (⟨["x"], "c2", "mode", some "B", some "m2"⟩,
        { initState with
            buffer_modes := [("B", ["m1", "m2"])],
            mode_keymaps := [("m1", [(["x"], "c1")]), ("m2", [(["x"], "c2")])],
            buffer_keymaps := [("B", [(["x"], "cb")])],
            global_keymap := [(["x"], "cg")] }) :=
  (pymacs_C4_key_precedence
    { initState with
        buffer_modes := [("B", ["m1", "m2"])],
        mode_keymaps := [("m1", [(["x"], "c1")]), ("m2", [(["x"], "c2")])],
        buffer_keymaps := [("B", [(["x"], "cb")])],
        global_keymap := [(["x"], "cg")] }
    ["x"] "B" "m1" "m2" [(["x"], "c1")] [(["x"], "c2")] [(["x"], "cb")]
    "c1" "c2" "cb" "cg" (by decide) (by decide) (by decide) (by decide) (by decide)
    (by decide) (by decide) (by decide) (by decide) (by decide)).1

/-! ### Claim C9: `where_is` and sequence ordering -/

theorem strLt_cons (x y : Char) (xs ys : List Char) :
    strLt (x :: xs) (y :: ys) = true ↔ x < y ∨ (x = y ∧ strLt xs ys = true) := by
  show (if x < y then true else if y < x then false else strLt xs ys) = true ↔ _
  rcases lt_trichotomy x y with h | h | h
  · simp [h]
  · subst h
    simp [lt_irrefl]
  · have h1 : ¬ x < y := not_lt.mpr (le_of_lt h)
    have h2 : x ≠ y := ne_of_gt h
    simp [h1, h, h2]

theorem strLt_trans : ∀ {a b c : List Char},
    strLt a b = true → strLt b c = true → strLt a c = true := by
  intro a
  induction a with
  | nil =>
      intro b c h1 h2
      cases b with
      | nil => cases h1
      | cons y ys =>
          cases c with
          | nil => cases h2
          | cons z zs => rfl
  | cons x xs ih =>
      intro b c h1 h2
      cases b with
      | nil => cases h1
      | cons y ys =>
          cases c with
          | nil => cases h2
          | cons z zs =>
              rw [strLt_cons] at h1 h2 ⊢
              rcases h1 with h1 | ⟨he1, h1⟩
              · rcases h2 with h2 | ⟨he2, h2⟩
                · exact Or.inl (lt_trans h1 h2)
                · exact Or.inl (he2 ▸ h1)
              · rcases h2 with h2 | ⟨he2, h2'⟩
                · exact Or.inl (he1 ▸ h2)
                · exact Or.inr ⟨he1.trans he2, ih h1 h2'⟩

theorem strLt_self (x : Char) (xs ys : List Char) :
    strLt (x :: xs) (x :: ys) = strLt xs ys := by
  show (if x < x then true else if x < x then false else strLt xs ys) = _
  rw [if_neg (lt_irrefl x), if_neg (lt_irrefl x)]

theorem strLt_conn : ∀ {a b : List Char},
    strLt a b = false → strLt b a = false → a = b := by
  intro a
  induction a with
  | nil =>
      intro b h1 _
      cases b with
      | nil => rfl
      | cons y ys => cases h1
  | cons x xs ih =>
      intro b h1 h2
      cases b with
      | nil => cases h2
      | cons y ys =>
          have hx : ¬ x < y := by
            intro hlt
            rw [(strLt_cons x y xs ys).mpr (Or.inl hlt)] at h1
            cases h1
          have hy : ¬ y < x := by
            intro hlt
            rw [(strLt_cons y x ys xs).mpr (Or.inl hlt)] at h2
            cases h2
          have he : x = y := le_antisymm (not_lt.mp hy) (not_lt.mp hx)
          subst he
          rw [strLt_self] at h1 h2
          rw [ih h1 h2]

theorem strLtS_trans {a b c : String} (h1 : strLtS a b = true)
    (h2 : strLtS b c = true) : strLtS a c = true := strLt_trans h1 h2

theorem strLtS_conn {a b : String} (h1 : strLtS a b = false)
    (h2 : strLtS b a = false) : a = b := by
  have h := strLt_conn h1 h2
  cases a
  cases b
  cases h
  rfl

theorem strLt_irrefl : ∀ (l : List Char), strLt l l = false := by
  intro l
  induction l with
  | nil => rfl
  | cons x xs ih => rw [strLt_self, ih]

theorem strLtS_irrefl (a : String) : strLtS a a = false := strLt_irrefl a.data

theorem seqLt_cons (a b : String) (as bs : KeySeq) :
    seqLt (a :: as) (b :: bs) = true ↔
      strLtS a b = true ∨ (a = b ∧ seqLt as bs = true) := by
  show (if strLtS a b then true else if strLtS b a then false else seqLt as bs)
      = true ↔ _
  cases h1 : strLtS a b with
  | true => simp [h1]
  | false =>
      cases h2 : strLtS b a with
      | true =>
          have hne : ¬ a = b := by
            intro he
            subst he
            rw [strLtS_irrefl] at h2
            cases h2
          simp [h1, h2, hne]
      | false =>
          have he : a = b := strLtS_conn h1 h2
          simp [h1, h2, he]

theorem seqLt_trans : ∀ {a b c : KeySeq},
    seqLt a b = true → seqLt b c = true → seqLt a c = true := by
  intro a
  induction a with
  | nil =>
      intro b c h1 h2
      cases b with
      | nil => cases h1
      | cons y ys =>
          cases c with
          | nil => cases h2
          | cons z zs => rfl
  | cons x xs ih =>
      intro b c h1 h2
      cases b with
      | nil => cases h1
      | cons y ys =>
          cases c with
          | nil => cases h2
          | cons z zs =>
              rw [seqLt_cons] at h1 h2 ⊢
              rcases h1 with h1 | ⟨he1, h1⟩
              · rcases h2 with h2 | ⟨he2, h2⟩
                · exact Or.inl (strLtS_trans h1 h2)
                · exact Or.inl (he2 ▸ h1)
              · rcases h2 with h2 | ⟨he2, h2'⟩
                · exact Or.inl (he1 ▸ h2)
                · exact Or.inr ⟨he1.trans he2, ih h1 h2'⟩

theorem seqLt_self (a : String) (as bs : KeySeq) :
    seqLt (a :: as) (a :: bs) = seqLt as bs := by
  show (if strLtS a a then true else if strLtS a a then false else seqLt as bs) = _
  rw [strLtS_irrefl]
  rfl

theorem seqLt_conn : ∀ {a b : KeySeq},
    seqLt a b = false → seqLt b a = false → a = b := by
  intro a
  induction a with
  | nil =>
      intro b h1 _
      cases b with
      | nil => rfl
      | cons y ys => cases h1
  | cons x xs ih =>
      intro b h1 h2
      cases b with
      | nil => cases h2
      | cons y ys =>
          have hx : ¬ strLtS x y = true := by
            intro hlt
            rw [(seqLt_cons x y xs ys).mpr (Or.inl hlt)] at h1
            cases h1
          have hy : ¬ strLtS y x = true := by
            intro hlt
            rw [(seqLt_cons y x ys xs).mpr (Or.inl hlt)] at h2
            cases h2
          have he : x = y :=
            strLtS_conn (Bool.eq_false_iff.mpr hx) (Bool.eq_false_iff.mpr hy)
          subst he
          rw [seqLt_self] at h1 h2
          rw [ih h1 h2]

theorem seqLt_irrefl : ∀ (a : KeySeq), seqLt a a = false := by
  intro a
  induction a with
  | nil => rfl
  | cons x xs ih => rw [seqLt_self, ih]

theorem seqLt_asymm {a b : KeySeq} (h : seqLt a b = true) : seqLt b a = false := by
  cases hb : seqLt b a with
  | false => rfl
  | true =>
      have := seqLt_trans h hb
      rw [seqLt_irrefl] at this
      cases this

theorem seqLt_false_trans {a b c : KeySeq} (h1 : seqLt a b = false)
    (h2 : seqLt b c = false) : seqLt a c = false := by
  cases hac : seqLt a c with
  | false => rfl
  | true =>
      exfalso
      cases hba : seqLt b a with
      | true =>
          have := seqLt_trans hba hac
          rw [h2] at this
          cases this
      | false =>
          have he : a = b := seqLt_conn h1 hba
          subst he
          rw [h2] at hac
          cases hac

theorem insertByKey_perm (x : KeySeq × String) :
    ∀ l, (insertByKey x l).Perm (x :: l) := by
  intro l
  induction l with
  | nil => exact List.Perm.refl _
  | cons y ys ih =>
      show (if seqLt y.1 x.1 then y :: insertByKey x ys else x :: y :: ys).Perm _
      by_cases h : seqLt y.1 x.1 = true
      · rw [if_pos h]
        exact (ih.cons y).trans (List.Perm.swap x y ys)
      · rw [if_neg h]

theorem sortByKey_perm : ∀ l, (sortByKey l).Perm l := by
  intro l
  induction l with
  | nil => exact List.Perm.refl _
  | cons x xs ih => exact (insertByKey_perm x (sortByKey xs)).trans (ih.cons x)

theorem insertByKey_sorted {x : KeySeq × String} :
    ∀ {l}, l.Pairwise (fun p q : KeySeq × String => seqLt q.1 p.1 = false) →
      (insertByKey x l).Pairwise (fun p q => seqLt q.1 p.1 = false) := by
  intro l
  induction l with
  | nil =>
      intro _
      exact List.pairwise_singleton _ _
  | cons y ys ih =>
      intro h
      rw [List.pairwise_cons] at h
      obtain ⟨hy, hys⟩ := h
      show (if seqLt y.1 x.1 then y :: insertByKey x ys
          else x :: y :: ys).Pairwise _
      by_cases hc : seqLt y.1 x.1 = true
      · rw [if_pos hc]
        rw [List.pairwise_cons]
        refine ⟨?_, ih hys⟩
        intro z hz
        have hz' : z ∈ x :: ys := (insertByKey_perm x ys).mem_iff.mp hz
        rcases List.mem_cons.mp hz' with rfl | hz''
        · exact seqLt_asymm hc
        · exact hy z hz''
      · rw [if_neg hc]
        rw [List.pairwise_cons]
        refine ⟨?_, List.pairwise_cons.mpr ⟨hy, hys⟩⟩
        intro z hz
        rcases List.mem_cons.mp hz with rfl | hz'
        · exact Bool.eq_false_iff.mpr hc
        · exact seqLt_false_trans (hy z hz') (Bool.eq_false_iff.mpr hc)

theorem sortByKey_sorted :
    ∀ l, (sortByKey l).Pairwise (fun p q : KeySeq × String => seqLt q.1 p.1 = false) := by
  intro l
  induction l with
  | nil => exact List.Pairwise.nil
  | cons x xs ih => exact insertByKey_sorted ih

theorem flatMap_eq_map_flatten {α β : Type} (f : α → List β) (l : List α) :
    l.flatMap f = (l.map f).flatten := by
  induction l with
  | nil => rfl
  | cons x xs ih => simp [ih]

theorem forall₂_map_self {α β : Type} (f : α → β) (P : β → α → Prop) :
    ∀ l : List α, (∀ e ∈ l, P (f e) e) → List.Forall₂ P (l.map f) l := by
  intro l
  induction l with
  | nil =>
      intro _
      exact List.Forall₂.nil
  | cons e es ih =>
      intro h
      exact List.Forall₂.cons (h e (List.mem_cons_self _ _))
        (ih fun e' he' => h e' (List.mem_cons_of_mem _ he'))

/-- A concrete editor for C9: `cmd` is bound to `["z"]` in an enabled mode of
buffer `B` and to `["a"]` in the global keymap. -/
def c9ed : Editor :=
  { state := { initState with
      global_keymap := [(["a"], "cmd")],
      mode_keymaps := [("m", [(["z"], "cmd")])],
      buffer_modes := [("B", ["m"])] },
    commands := [("cmd", fun n => n)],
    hooks := [] }

/-- **C9 counterexample.** `where_is` sorts each scope's items separately and
concatenates the scopes in precedence order, so the overall returned list is
not sorted by sequence: the mode binding `["z"]` precedes the global binding
`["a"]`. -/
theorem pymacs_C9_where_is_counterexample :
    ∃ res st', where_is c9ed "cmd" (some "B") = some (res, st') ∧
      res.map (fun i => i.sequence) = [["z"], ["a"]] ∧
      ¬ ([["z"], ["a"]] : List KeySeq).Pairwise (fun s t => seqLt t s = false) := by
  refine ⟨_, _, rfl, rfl, by decide⟩

/-- **C9 (amended).** For a registered command and a non-empty target buffer,
`where_is` succeeds without touching the state, every returned binding is for
the queried command, and the result is the concatenation, over the active
scopes in precedence order (modes most-recently-enabled first, then buffer,
then global), of per-scope blocks: each block carries that scope's tag,
contains exactly the sequences the scope's keymap binds to the command, and is
itself sorted by sequence — but the concatenation need not be globally
sorted. -/
theorem pymacs_C9_where_is (ed : Editor) (name B : String)
    (hreg : (alookup ed.commands name).isSome = true) (hB : B ≠ "") :
    ∃ res : List KeyBindingInfo,
      where_is ed name (some B) = some (res, ed.state) ∧
      (∀ i ∈ res, i.command_name = name) ∧
      ∃ blocks : List (List KeyBindingInfo),
        res = blocks.flatten ∧
        List.Forall₂ (fun bl e =>
            (∀ i ∈ bl, i.scope = e.1 ∧ i.mode = e.2.1 ∧ i.buffer = e.2.2.1) ∧
            ((bl.map (fun i => i.sequence)).Perm
              ((e.2.2.2.filter (fun p => p.2 = name)).map Prod.fst)) ∧
            (bl.map (fun i => i.sequence)).Pairwise (fun s t => seqLt t s = false))
          blocks (active_keymaps ed.state B) := by
  have hwhere : where_is ed name (some B) =
      some ((active_keymaps ed.state B).flatMap (fun e =>
        ((sortByKey e.2.2.2).filter (fun p => p.2 = name)).map (fun p =>
          ⟨p.1, p.2, e.1, e.2.2.1, e.2.1⟩)), ed.state) := by
    simp [where_is, hreg, orSelected_some ed.state hB]
  refine ⟨_, hwhere, ?_, ?_⟩
  · intro i hi
    rw [List.mem_flatMap] at hi
    obtain ⟨e, _, hif⟩ := hi
    rw [List.mem_map] at hif
    obtain ⟨p, hp, hip⟩ := hif
    rw [List.mem_filter] at hp
    rw [← hip]
    simpa using hp.2
  · refine ⟨(active_keymaps ed.state B).map (fun e =>
        ((sortByKey e.2.2.2).filter (fun p => p.2 = name)).map (fun p =>
          ⟨p.1, p.2, e.1, e.2.2.1, e.2.1⟩)), flatMap_eq_map_flatten _ _, ?_⟩
    refine forall₂_map_self _ _ _ (fun e _ => ⟨?_, ?_, ?_⟩)
    · intro i hi
      rw [List.mem_map] at hi
      obtain ⟨p, _, hip⟩ := hi
      rw [← hip]
      exact ⟨rfl, rfl, rfl⟩
    · rw [List.map_map]
      show ((sortByKey e.2.2.2).filter (fun p => p.2 = name)).map Prod.fst |>.Perm _
      exact List.Perm.map _ ((sortByKey_perm _).filter _)
    · rw [List.map_map]
      rw [List.pairwise_map]
      exact ((sortByKey_sorted e.2.2.2).sublist (List.filter_sublist _))

/-- Witness for C9 at a concrete editor with two global bindings for the
command. -/
theorem pymacs_C9_where_is_witness :
    ∃ res, where_is
        { state := { initState with global_keymap := [(["b"], "cmd"), (["a"], "cmd")] },
          commands := [("cmd", fun n => n)], hooks := [] }
        "cmd" (some "B") =
      some (res,
        { state := { initState with global_keymap := [(["b"], "cmd"), (["a"], "cmd")] },
          commands := [("cmd", fun n => n)], hooks := [] : Editor }.state) ∧
      ∀ i ∈ res, i.command_name = "cmd" := by
  obtain ⟨res, h1, h2, _⟩ := pymacs_C9_where_is
    { state := { initState with global_keymap := [(["b"], "cmd"), (["a"], "cmd")] },
      commands := [("cmd", fun n => n)], hooks := [] }
    "cmd" "B" rfl (by decide)
  exact ⟨res, h1, h2⟩

/-! ## UI key dispatcher (embedding of `pymacs/ui/controller.py`)

The dispatcher's observable behaviour is the new pending-key list plus an
effect describing what it did; `none` models an exception escaping the
dispatcher (a chord failing to parse, or a missing selected window during the
prefix probe). -/

/-- `UI_ACTION_BINDINGS` from `controller.py`. -/
def UI_ACTION_BINDINGS : List (List String × String) :=
  [(["M-x"], "open-minibuffer"), (["C-q"], "quit"), (["C-x", "C-c"], "quit")]

/-- `HELP_PROMPT_BINDINGS` from `controller.py`. -/
def HELP_PROMPT_BINDINGS : List (String × (String × String)) :=
  [("f", ("describe-command", "Describe command:")),
   ("k", ("describe-key", "Describe key:")),
   ("w", ("where-is", "Where is command:"))]

/-- `CTRL_X_COMMAND_BINDINGS` from `controller.py`. -/
def CTRL_X_COMMAND_BINDINGS : List (String × String) :=
  [("2", "split-window-below"), ("3", "split-window-right"), ("o", "other-window"),
   ("0", "delete-window"), ("1", "delete-other-windows"), ("C-b", "list-buffers")]

/-- `CTRL_X_PROMPT_BINDINGS` from `controller.py`. -/
def CTRL_X_PROMPT_BINDINGS : List (String × (String × Bool × String)) :=
  [("b", ("switch-to-buffer", true, "Switch to buffer:")),
   ("k", ("kill-buffer", false, "Kill buffer:"))]

/-- `bound[:len(seq)] == seq and len(bound) > len(seq)`. -/
def isStrictPrefixOf (seq bound : List String) : Bool :=
  decide (seq.length < bound.length) && decide (bound.take seq.length = seq)

/-- `_has_ui_prefix`. -/
def has_ui_prefix (sequence : List String) : Bool :=
  UI_ACTION_BINDINGS.any (fun p => isStrictPrefixOf sequence p.1) ||
  HELP_PROMPT_BINDINGS.any (fun p => isStrictPrefixOf sequence ["C-h", p.1]) ||
  CTRL_X_COMMAND_BINDINGS.any (fun p => isStrictPrefixOf sequence ["C-x", p.1]) ||
  CTRL_X_PROMPT_BINDINGS.any (fun p => isStrictPrefixOf sequence ["C-x", p.1])

/-- The dispatcher's observable outcome. -/
inductive DispatchEffect where
  | cancelled
  | helpPrompt (command prompt : String)
  | ctrlxCommand (command : String)
  | ctrlxPrompt (command prompt : String)
  | uiAction (action : String)
  | execute (sequence : String)
  | pendingKeys (candidate : List String)
  | unbound (candidate : List String)
deriving DecidableEq, Repr

/-- `_handle_help_prefix`. -/
def handle_help_prefix (candidate : List String) : List String × DispatchEffect :=
  match alookup HELP_PROMPT_BINDINGS (candidate.getD 1 "") with
  | none => ([], .unbound candidate)
  | some (command_name, prompt) => ([], .helpPrompt command_name prompt)

/-- `_handle_ctrl_x_prefix`: the two `C-x` sub-tables, then the UI action
table; the keymap resolver is never consulted. -/
def handle_ctrl_x_prefix (candidate : List String) : List String × DispatchEffect :=
  match alookup CTRL_X_COMMAND_BINDINGS (candidate.getD 1 "") with
  | some command_name => ([], .ctrlxCommand command_name)
  | none =>
      match alookup CTRL_X_PROMPT_BINDINGS (candidate.getD 1 "") with
      | some (command_name, _, prompt) => ([], .ctrlxPrompt command_name prompt)
      | none =>
          match alookup UI_ACTION_BINDINGS candidate with
          | some action => ([], .uiAction action)
          | none => ([], .unbound candidate)

/-- `_dispatch_single_key`. -/
def dispatch_single_key (ed : Editor) (pending : List String) (key : String) :
    Option (List String × DispatchEffect) :=
  if key = "C-g" then some ([], .cancelled)
  else
    let candidate := pending ++ [key]
    if candidate.length = 2 ∧ candidate.headD "" = "C-h" then
      some ( handle_help_prefix candidate)
    else if candidate.length = 2 ∧ candidate.headD "" = "C-x" then
      some ( handle_ctrl_x_prefix candidate)
    else
      match alookup UI_ACTION_BINDINGS candidate with
      | some action => some ([], .uiAction action)
      | none =>
          match parse_key_sequence_list candidate with
          | .error _ => none
          | .ok parsed =>
              match describe_key ed.state parsed none with
              | some _ => some ([], .execute (format_key_sequence candidate))
              | none =>
                  match has_prefix_binding ed.state parsed none with
                  | none => none
                  | some hp =>
                      if hp || has_ui_prefix candidate then
                        some (candidate, .pendingKeys candidate)
                      else
                        some ([], .unbound candidate)

/-- A concrete editor for C6: the registered command `find-file` is globally
bound to the two-chord sequence `C-x C-f`. -/
def c6ed : Editor :=
  { state := { initState with global_keymap := [(["C-x", "C-f"], "find-file")] },
    commands := [("find-file", fun n => n)],
    hooks := [] }

/-- **C6 counterexample.** With `C-x` pending and `C-f` arriving, the
candidate `C-x C-f` resolves via the keymap resolver to the registered
command `find-file`, yet the dispatcher reports it unbound: any length-2
candidate starting with `C-x` is handled by the `C-x` sub-tables and the UI
action table only, and the resolver is never consulted. -/
theorem pymacs_C6_dispatch_counterexample :
    (alookup c6ed.commands "find-file").isSome = true ∧
    (∃ info st', describe_key c6ed.state ["C-x", "C-f"] none = some (info, st') ∧
      info.command_name = "find-file") ∧
    dispatch_single_key c6ed ["C-x"] "C-f" = some ([], .unbound ["C-x", "C-f"]) := by
  exact ⟨rfl, ⟨_, _, rfl, rfl⟩, rfl⟩

/-- **C6 (amended).** For every dispatcher state and incoming chord other than
the cancel key, **provided the candidate is not a length-2 sequence starting
with `C-h` or `C-x`** (those are captured by the help/`C-x` prefix handlers,
which never consult the keymap resolver): if the candidate exactly matches a
UI-level action binding the dispatcher performs that action, and otherwise if
the candidate parses and resolves via the keymap resolver the dispatcher
executes the resolved sequence; in both cases it clears the pending state,
returning to idle. -/
theorem pymacs_C6_dispatch (ed : Editor) (pending : List String) (key : String)
    (hkey : ¬ key = "C-g")
    (hnot : ¬ ((pending ++ [key]).length = 2 ∧
      ((pending ++ [key]).headD "" = "C-h" ∨ (pending ++ [key]).headD "" = "C-x"))) :
    (∀ action, alookup UI_ACTION_BINDINGS (pending ++ [key]) = some action →
      dispatch_single_key ed pending key = some ([], .uiAction action)) ∧
    (alookup UI_ACTION_BINDINGS (pending ++ [key]) = none →
      ∀ parsed info st',
        parse_key_sequence_list (pending ++ [key]) = .ok parsed →
        describe_key ed.state parsed none = some (info, st') →
        dispatch_single_key ed pending key =
          some ([], .execute (format_key_sequence (pending ++ [key])))) := by
  have h1 : ¬ ((pending ++ [key]).length = 2 ∧ (pending ++ [key]).headD "" = "C-h") :=
    fun ⟨hl, hh⟩ => hnot ⟨hl, Or.inl hh⟩
  have h2 : ¬ ((pending ++ [key]).length = 2 ∧ (pending ++ [key]).headD "" = "C-x") :=
    fun ⟨hl, hh⟩ => hnot ⟨hl, Or.inr hh⟩
  constructor
  · intro action ha
    simp only [dispatch_single_key, if_neg hkey, if_neg h1, if_neg h2, ha]
  · intro ha parsed info st' hp hd
    simp only [dispatch_single_key, if_neg hkey, if_neg h1, if_neg h2, ha, hp, hd]

/-- Witness for C6: with no pending keys and a global binding of `a` to a
registered command, pressing `a` executes it and stays idle. -/
theorem pymacs_C6_dispatch_witness :
    dispatch_single_key
      { state := { initState with global_keymap := [(["a"], "cmd")] },
        commands := [("cmd", fun n => n)], hooks := [] }
      [] "a" = some ([], .execute "a") := by
  exact (pymacs_C6_dispatch
    { state := { initState with global_keymap := [(["a"], "cmd")] },
      commands := [("cmd", fun n => n)], hooks := [] }
    [] "a" (by decide) (by decide)).2 rfl ["a"] _ _ rfl rfl

end Pymacs
